import Mathlib

/-!
Verification of the config-layers resolution engine.

This file shallowly embeds the core of the library (the file defining
splitDotExceptDouble, deepMerge, deepFreeze and the LayeredConfig class)
into Lean and proves properties of the embedding.

Modelling conventions:
- JavaScript runtime values are modelled by the inductive type JSVal.
  Numbers are modelled as integers (no claim depends on floating point).
- Plain objects are association lists of own enumerable string-keyed
  fields in insertion order; property lookups consult own keys only
  (the prototype chain of Object.prototype is idealised away, as config
  data never relies on inherited properties).
- Arrays carry an identity tag ("id"): the engine assigns arrays by
  reference (deepMerge copies objects field by field but stores array
  values wholesale), so the same array object can be reachable both from
  a layer fragment and from the flattened snapshot.  The id models that
  object identity.  Arrays also carry the extra non-index properties
  JavaScript allows on array objects, and a frozen flag.
- Objects carry a frozen flag; a property write on a frozen object or
  array raises a TypeError (the sources are ES modules, hence strict
  mode).  The "in" operator applied to a non-object right-hand side also
  raises a TypeError, which the embedding models with Except.
- In-place mutations of arrays performed by deepMerge are reported in a
  write log (ArrWrite): each write records the array id and the complete
  element list and property list of the array after the write.  Applying
  the log to a value replaces the contents of every array with a matching
  id, which models the aliasing of JavaScript array objects.
-/

namespace ConfigLayers

/-- JavaScript-like runtime values. -/
inductive JSVal where
  | vnull
  | vundef
  | vbool (b : Bool)
  | vnum (n : Int)
  | vstr (s : String)
  | varr (id : Nat) (frozen : Bool) (elems : List JSVal) (props : List (String × JSVal))
  | vobj (frozen : Bool) (fields : List (String × JSVal))
deriving Repr

mutual

/-- Boolean structural equality on JSVal, used to build decidable equality. -/
def jsEq : JSVal → JSVal → Bool
  | .vnull, .vnull => true
  | .vundef, .vundef => true
  | .vbool a, .vbool b => a == b
  | .vnum a, .vnum b => a == b
  | .vstr a, .vstr b => a == b
  | .varr i f e p, .varr i' f' e' p' => i == i' && f == f' && jsEqList e e' && jsEqFields p p'
  | .vobj f fs, .vobj f' fs' => f == f' && jsEqFields fs fs'
  | _, _ => false

def jsEqList : List JSVal → List JSVal → Bool
  | [], [] => true
  | a :: as, b :: bs => jsEq a b && jsEqList as bs
  | _, _ => false

def jsEqFields : List (String × JSVal) → List (String × JSVal) → Bool
  | [], [] => true
  | (k, a) :: as, (k', b) :: bs => k == k' && jsEq a b && jsEqFields as bs
  | _, _ => false

end

mutual

theorem jsEq_refl : (a : JSVal) → jsEq a a = true
  | .vnull => rfl
  | .vundef => rfl
  | .vbool b => by simp [jsEq]
  | .vnum n => by simp [jsEq]
  | .vstr s => by simp [jsEq]
  | .varr i f e p => by simp [jsEq, jsEqList_refl e, jsEqFields_refl p]
  | .vobj f fs => by simp [jsEq, jsEqFields_refl fs]

theorem jsEqList_refl : (l : List JSVal) → jsEqList l l = true
  | [] => rfl
  | a :: as => by simp [jsEqList, jsEq_refl a, jsEqList_refl as]

theorem jsEqFields_refl : (l : List (String × JSVal)) → jsEqFields l l = true
  | [] => rfl
  | (k, a) :: as => by simp [jsEqFields, jsEq_refl a, jsEqFields_refl as]

end

mutual

theorem jsEq_eq : (a b : JSVal) → jsEq a b = true → a = b
  | .vnull, .vnull, _ => rfl
  | .vundef, .vundef, _ => rfl
  | .vbool a, .vbool b, h => by simp [jsEq] at h; simp [h]
  | .vnum a, .vnum b, h => by simp [jsEq] at h; simp [h]
  | .vstr a, .vstr b, h => by simp [jsEq] at h; simp [h]
  | .varr i f e p, .varr i' f' e' p', h => by
      simp only [jsEq, Bool.and_eq_true, beq_iff_eq] at h
      obtain ⟨⟨⟨h1, h2⟩, h3⟩, h4⟩ := h
      rw [h1, h2, jsEqList_eq e e' h3, jsEqFields_eq p p' h4]
  | .vobj f fs, .vobj f' fs', h => by
      simp only [jsEq, Bool.and_eq_true, beq_iff_eq] at h
      obtain ⟨h1, h2⟩ := h
      rw [h1, jsEqFields_eq fs fs' h2]

theorem jsEqList_eq : (a b : List JSVal) → jsEqList a b = true → a = b
  | [], [], _ => rfl
  | a :: as, b :: bs, h => by
      simp only [jsEqList, Bool.and_eq_true] at h
      rw [jsEq_eq a b h.1, jsEqList_eq as bs h.2]

theorem jsEqFields_eq : (a b : List (String × JSVal)) → jsEqFields a b = true → a = b
  | [], [], _ => rfl
  | (k, a) :: as, (k', b) :: bs, h => by
      simp only [jsEqFields, Bool.and_eq_true, beq_iff_eq] at h
      obtain ⟨⟨h1, h2⟩, h3⟩ := h
      rw [h1, jsEq_eq a b h2, jsEqFields_eq as bs h3]

end

instance : DecidableEq JSVal := fun a b =>
  if h : jsEq a b = true then .isTrue (jsEq_eq a b h)
  else .isFalse (fun he => h (he ▸ jsEq_refl a))

/-- A layer name is a string or a symbol (modelled by a numeric identity). -/
inductive LayerName where
  | str (s : String)
  | sym (id : Nat)
deriving Repr, DecidableEq

/-- The boolean resolution options of ConfigOptions.  The notFoundHandler is
not a field of the model: resolution functions return the behaviour of the
default handler (an error naming the missing key) through Except. -/
structure ConfigOptions where
  acceptNull : Bool
  acceptUndefined : Bool
  freeze : Bool
deriving Repr, DecidableEq

/-- The default options installed by the LayeredConfig constructor. -/
def defaultOptions : ConfigOptions :=
  { acceptNull := false, acceptUndefined := false, freeze := true }

/-- Errors surfaced by the embedded engine. -/
inductive JSErr where
  | typeError (msg : String)
  | notFound (msg : String)
deriving Repr, DecidableEq

/-- Lookup of an own field in an association-list object, first match wins. -/
def objLookup (fields : List (String × JSVal)) (k : String) : Option JSVal :=
  match fields with
  | [] => none
  | (k', v) :: rest => if k' = k then some v else objLookup rest k

/-- Property write on an association-list object: an existing key keeps its
position, a new key is appended, matching JavaScript property order. -/
def objSet (fields : List (String × JSVal)) (k : String) (v : JSVal) :
    List (String × JSVal) :=
  match fields with
  | [] => [(k, v)]
  | (k', v') :: rest => if k' = k then (k, v) :: rest else (k', v') :: objSet rest k v

/-- A canonical array index string: nonempty, all digits, no leading zero. -/
def isIndexStr (s : String) : Bool :=
  s ≠ "" && s.toList.all Char.isDigit && (s = "0" || s.toList.head? ≠ some '0')
    && s.toList.length ≤ 9

/-- Numeric value of an index string. -/
def indexOfStr (s : String) : Nat := s.toNat?.getD 0

/-- JavaScript truthiness. -/
def truthy : JSVal → Bool
  | .vnull => false
  | .vundef => false
  | .vbool b => b
  | .vnum n => n != 0
  | .vstr s => s ≠ ""
  | .varr _ _ _ _ => true
  | .vobj _ _ => true

/-- The "in" operator: membership among the properties of an object or array.
Applied to a primitive it raises a TypeError, as in JavaScript. -/
def jsHasProp (t : JSVal) (k : String) : Except JSErr Bool :=
  match t with
  | .vobj _ fields => .ok (objLookup fields k).isSome
  | .varr _ _ elems props =>
      .ok ((isIndexStr k && indexOfStr k < elems.length) || k = "length"
        || (objLookup props k).isSome)
  | _ => .error (.typeError ("Cannot use in operator to search for " ++ k))

/-- Property read.  Reads on primitives yield undefined; the engine only
reads properties after a successful membership test. -/
def jsGetProp (t : JSVal) (k : String) : JSVal :=
  match t with
  | .vobj _ fields => (objLookup fields k).getD .vundef
  | .varr _ _ elems props =>
      if isIndexStr k && indexOfStr k < elems.length then
        (elems.get? (indexOfStr k)).getD .vundef
      else if k = "length" then .vnum elems.length
      else (objLookup props k).getD .vundef
  | _ => (.vundef)

/-- Element update in an array, padding with undefined beyond the end. -/
def arrSetIdx (elems : List JSVal) (i : Nat) (v : JSVal) : List JSVal :=
  if i < elems.length then elems.set i v
  else elems ++ List.replicate (i - elems.length) .vundef ++ [v]

/-- One logged in-place array mutation: the array id together with the full
element list and property list of the array after the write. -/
structure ArrWrite where
  id : Nat
  elems : List JSVal
  props : List (String × JSVal)
deriving Repr, DecidableEq

/-- Strict-mode property write: fails with a TypeError on frozen objects and
arrays and on primitives.  A write into an array is logged. -/
def jsSetProp (t : JSVal) (k : String) (v : JSVal) :
    Except JSErr (JSVal × List ArrWrite) :=
  match t with
  | .vobj fr fields =>
      if fr then .error (.typeError ("Cannot assign to read only property " ++ k))
      else .ok (.vobj fr (objSet fields k v), [])
  | .varr i fr elems props =>
      if fr then .error (.typeError ("Cannot assign to read only property " ++ k))
      else if isIndexStr k then
        let elems' := arrSetIdx elems (indexOfStr k) v
        .ok (.varr i fr elems' props, [⟨i, elems', props⟩])
      else
        let props' := objSet props k v
        .ok (.varr i fr elems props', [⟨i, elems, props'⟩])
  | _ => .error (.typeError ("Cannot create property " ++ k ++ " on a primitive"))

/-- Replacement of a property without a frozen check: used to model the
functional write-back after deepMerge has mutated a nested object in place
(JavaScript performs no assignment there, the object was mutated through
the reference read from the parent). -/
def jsReplaceProp (t : JSVal) (k : String) (v : JSVal) : JSVal × List ArrWrite :=
  match t with
  | .vobj fr fields => (.vobj fr (objSet fields k v), [])
  | .varr i fr elems props =>
      if isIndexStr k then
        let elems' := arrSetIdx elems (indexOfStr k) v
        (.varr i fr elems' props, [⟨i, elems', props⟩])
      else
        let props' := objSet props k v
        (.varr i fr elems props', [⟨i, elems, props'⟩])
  | _ => (t, [])

/-- The key path parser: auxiliary splitter.  A dot is a separator exactly
when it is not adjacent to another dot; the character before the current one
is threaded through as prev. -/
def splitGo (prev : Option Char) : List Char → List (List Char)
  | [] => [[]]
  | c :: rest =>
      if c = '.' && prev ≠ some '.' && rest.head? ≠ some '.' then
        [] :: splitGo (some '.') rest
      else
        match splitGo (some c) rest with
        | part :: parts => (c :: part) :: parts
        | [] => [[c]]

/-- The key path parser: collapse step.  Each maximal run of two or more
dots loses exactly one dot (the replacement of the source keeps
match.slice of 1, and all dots are identical so dropping the first dot of
the run is the same list); single dots are left alone.  The flag prev
records whether the previous character was a dot. -/
def collapseRuns (prev : Bool) : List Char → List Char
  | [] => []
  | c :: rest =>
      if c = '.' then
        if !prev && rest.head? = some '.' then collapseRuns true rest
        else '.' :: collapseRuns true rest
      else c :: collapseRuns false rest

/-- splitDotExceptDouble from the source: split on every dot not preceded or
followed by another dot, then remove one dot from each doubled run inside
every part. -/
def splitDotExceptDouble (s : String) : List String :=
  (splitGo none s.toList).map (fun cs => String.mk (collapseRuns false cs))

theorem splitGo_ne_nil (prev : Option Char) (l : List Char) : splitGo prev l ≠ [] := by
  induction l generalizing prev with
  | nil => simp [splitGo]
  | cons c rest ih =>
      rw [splitGo]
      split
      · simp
      · rcases hr : splitGo (some c) rest with _ | ⟨part, parts⟩
        · exact absurd hr (ih (some c))
        · simp [hr]

theorem splitDotExceptDouble_ne_nil (s : String) : splitDotExceptDouble s ≠ [] := by
  simp only [splitDotExceptDouble, ne_eq, List.map_eq_nil_iff]
  exact splitGo_ne_nil none s.toList

/-- The own enumerable string-keyed entries seen by a for-in loop or an
object spread: the fields of an object, the indexed elements followed by
the extra properties of an array, nothing for primitives. -/
def forInEntries : JSVal → List (String × JSVal)
  | .vobj _ fields => fields
  | .varr _ _ elems props => (elems.enum.map (fun p => (toString p.1, p.2))) ++ props
  | _ => []

/-- The deepMerge condition selecting the recursive branch: a value of
typeof object that is neither null nor an array. -/
def isMergeableObj : JSVal → Bool
  | .vobj _ _ => true
  | _ => false

/-- The acceptance policy applied to a value read from a layer: null is
skipped unless acceptNull, undefined is skipped unless acceptUndefined. -/
def acceptedVal (opts : ConfigOptions) (v : JSVal) : Bool :=
  (if v = .vnull then opts.acceptNull else true)
    && (if v = .vundef then opts.acceptUndefined else true)

mutual

/-- One iteration of the deepMerge for-in loop, for source entry (k, v). -/
def deepMergeEntry (opts : ConfigOptions) (t : JSVal) (k : String) (v : JSVal) :
    Except JSErr (JSVal × List ArrWrite) :=
  if v = .vnull ∧ opts.acceptNull = false then .ok (t, [])
  else if v = .vundef ∧ opts.acceptUndefined = false then .ok (t, [])
  else
    match v with
    | .vobj _ vfields =>
        match jsHasProp t k with
        | .error e => .error e
        | .ok has =>
          if has then
            match deepMergeList opts (jsGetProp t k) vfields with
            | .error e => .error e
            | .ok (merged, w) =>
                let r := jsReplaceProp t k merged
                .ok (r.1, w ++ r.2)
          else
            match jsSetProp t k (.vobj false []) with
            | .error e => .error e
            | .ok (t₁, w₁) =>
              match deepMergeList opts (jsGetProp t₁ k) vfields with
              | .error e => .error e
              | .ok (merged, w) =>
                  let r := jsReplaceProp t₁ k merged
                  .ok (r.1, w₁ ++ w ++ r.2)
    | _ =>
        match jsSetProp t k v with
        | .error e => .error e
        | .ok (t', w) => .ok (t', w)

/-- The deepMerge for-in loop over the remaining source entries. -/
def deepMergeList (opts : ConfigOptions) (t : JSVal) :
    List (String × JSVal) → Except JSErr (JSVal × List ArrWrite)
  | [] => .ok (t, [])
  | (k, v) :: rest =>
      match deepMergeEntry opts t k v with
      | .error e => .error e
      | .ok (t₁, w₁) =>
          match deepMergeList opts t₁ rest with
          | .error e => .error e
          | .ok (t₂, w₂) => .ok (t₂, w₁ ++ w₂)

end

/-- deepMerge from the source: fold the own enumerable entries of the
source into the target. -/
def deepMerge (opts : ConfigOptions) (t : JSVal) (src : JSVal) :
    Except JSErr (JSVal × List ArrWrite) :=
  deepMergeList opts t (forInEntries src)

/-- The flattened-snapshot fold of the constructor: deep-merge every layer
fragment, lowest precedence first, into a fresh accumulator object. -/
def flattenLayers (opts : ConfigOptions) (acc : JSVal) :
    List (LayerName × JSVal) → Except JSErr (JSVal × List ArrWrite)
  | [] => .ok (acc, [])
  | (_, frag) :: rest =>
      match deepMerge opts acc frag with
      | .error e => .error e
      | .ok (acc₁, w₁) =>
          match flattenLayers opts acc₁ rest with
          | .error e => .error e
          | .ok (acc₂, w₂) => .ok (acc₂, w₁ ++ w₂)

mutual

/-- deepFreeze from the source: an already frozen node is skipped entirely
(including its children); otherwise all object children are frozen first
and then the node itself. -/
def deepFreeze : JSVal → JSVal
  | .vobj fr fields => if fr then .vobj fr fields else .vobj true (deepFreezeFields fields)
  | .varr i fr elems props =>
      if fr then .varr i fr elems props
      else .varr i true (deepFreezeElems elems) (deepFreezeFields props)
  | v => v

def deepFreezeElems : List JSVal → List JSVal
  | [] => []
  | v :: rest => deepFreeze v :: deepFreezeElems rest

def deepFreezeFields : List (String × JSVal) → List (String × JSVal)
  | [] => []
  | (k, v) :: rest => (k, deepFreeze v) :: deepFreezeFields rest

end

mutual

/-- The ids of the arrays that are frozen in a value. -/
def frozenArrIds : JSVal → List Nat
  | .vobj _ fields => frozenArrIdsFields fields
  | .varr i fr elems props =>
      (if fr then [i] else []) ++ frozenArrIdsElems elems ++ frozenArrIdsFields props
  | _ => []

def frozenArrIdsElems : List JSVal → List Nat
  | [] => []
  | v :: rest => frozenArrIds v ++ frozenArrIdsElems rest

def frozenArrIdsFields : List (String × JSVal) → List Nat
  | [] => []
  | (_, v) :: rest => frozenArrIds v ++ frozenArrIdsFields rest

end

mutual

/-- Propagate freezing through array identity: an array whose id was frozen
elsewhere (it is the same array object) becomes frozen together with its
reachable contents, which were frozen through the shared reference too. -/
def markArrsFrozen (ids : List Nat) : JSVal → JSVal
  | .vobj fr fields => .vobj fr (markArrsFrozenFields ids fields)
  | .varr i fr elems props =>
      if i ∈ ids then deepFreeze (.varr i fr elems props)
      else .varr i fr (markArrsFrozenElems ids elems) (markArrsFrozenFields ids props)
  | v => v

def markArrsFrozenElems (ids : List Nat) : List JSVal → List JSVal
  | [] => []
  | v :: rest => markArrsFrozen ids v :: markArrsFrozenElems ids rest

def markArrsFrozenFields (ids : List Nat) : List (String × JSVal) → List (String × JSVal)
  | [] => []
  | (k, v) :: rest => (k, markArrsFrozen ids v) :: markArrsFrozenFields ids rest

end

/-- The state of a LayeredConfig instance: the layer store in insertion
order (lowest precedence first), the options, the flattened snapshot. -/
structure Instance where
  layers : List (LayerName × JSVal)
  options : ConfigOptions
  flattened : JSVal
deriving Repr, DecidableEq

/-- Map-style insertion: an existing name keeps its position and gets the
new fragment, a new name is appended. -/
def storeSet (m : List (LayerName × JSVal)) (k : LayerName) (v : JSVal) :
    List (LayerName × JSVal) :=
  match m with
  | [] => [(k, v)]
  | (k', v') :: rest => if k' = k then (k, v) :: rest else (k', v') :: storeSet rest k v

/-- Lookup in the layer store. -/
def storeGet (m : List (LayerName × JSVal)) (k : LayerName) : Option JSVal :=
  match m with
  | [] => none
  | (k', v) :: rest => if k' = k then some v else storeGet rest k

/-- The Map constructor over a list of entries: later duplicates replace
earlier ones in place. -/
def mapFromList (l : List (LayerName × JSVal)) : List (LayerName × JSVal) :=
  l.foldl (fun m p => storeSet m p.1 p.2) []

/-- deepFreeze(instance): the flattened snapshot is an own property and is
frozen deeply; the layers Map has no own string-keyed properties, so the
fragments inside it are reached only through shared arrays, whose ids are
frozen through the flattened snapshot. -/
def freezeInstance (inst : Instance) : Instance :=
  let flat := deepFreeze inst.flattened
  let ids := frozenArrIds flat
  { inst with
    flattened := flat
    layers := inst.layers.map (fun p => (p.1, markArrsFrozen ids p.2)) }

/-- fromLayers: build the store as a Map, fold the flattened snapshot
(with the array write log of the fold), then deep-freeze the instance when
the freeze option is set. -/
def fromLayers (layers : List (LayerName × JSVal)) (options : ConfigOptions) :
    Except JSErr (Instance × List ArrWrite) :=
  let store := mapFromList layers
  match flattenLayers options (.vobj false []) store with
  | .error e => .error e
  | .ok (flat, w) =>
      let inst : Instance := { layers := store, options := options, flattened := flat }
      .ok (if options.freeze then freezeInstance inst else inst, w)

/-- A patch of the options record, as accepted by fromLayers and derive. -/
structure OptionsPatch where
  acceptNull : Option Bool := none
  acceptUndefined : Option Bool := none
  freeze : Option Bool := none
deriving Repr, DecidableEq

/-- Object.assign of a patch over a base options record. -/
def applyPatch (base : ConfigOptions) (p : OptionsPatch) : ConfigOptions :=
  { acceptNull := p.acceptNull.getD base.acceptNull
    acceptUndefined := p.acceptUndefined.getD base.acceptUndefined
    freeze := p.freeze.getD base.freeze }

/-- The public factory: options are the defaults overridden by the patch. -/
def fromLayersP (layers : List (LayerName × JSVal)) (p : OptionsPatch) :
    Except JSErr (Instance × List ArrWrite) :=
  fromLayers layers (applyPatch defaultOptions p)

/-- Boolean form of the in operator; only consulted where the engine has
already established that the receiver is an object or an array. -/
def jsHasPropB (t : JSVal) (k : String) : Bool :=
  match jsHasProp t k with
  | .ok b => b
  | .error _ => false

/-- __getFlat: direct read from the flattened snapshot, then fallback,
silent undefined, or the not-found handler (the default handler raises an
error naming the key). -/
def __getFlat (inst : Instance) (k : String) (fallback : JSVal) (silent : Bool) :
    Except JSErr JSVal :=
  let value := jsGetProp inst.flattened k
  if value ≠ .vundef ∨ (jsHasPropB inst.flattened k = true ∧ inst.options.acceptUndefined = true) then
    .ok value
  else if fallback ≠ .vundef then .ok fallback
  else if silent then .ok .vundef
  else .error (.notFound ("Key not found: " ++ k))

/-- The nested-path walk of __getComplex and __getAll: at each segment the
code tests the truthiness of the current value and then applies the in
operator, which raises a TypeError when the current value is a truthy
primitive. -/
def walkParts (v : JSVal) : List String → Except JSErr (Option JSVal)
  | [] => .ok (some v)
  | p :: rest =>
      if truthy v then
        match jsHasProp v p with
        | .error e => .error e
        | .ok true => walkParts (jsGetProp v p) rest
        | .ok false => .ok none
      else .ok none

/-- The final-value test of __getComplex: anything that is not of typeof
object, or is null, ends the scan. -/
def isFinalValue : JSVal → Bool
  | .vobj _ _ => false
  | .varr _ _ _ _ => false
  | _ => true

/-- Object spread of the own enumerable entries of v over an accumulator. -/
def spreadInto (acc : List (String × JSVal)) (v : JSVal) : List (String × JSVal) :=
  (forInEntries v).foldl (fun a p => objSet a p.1 p.2) acc

/-- The layer scan of __getComplex, highest precedence first: a skipped or
suppressed layer leaves the state unchanged, a final value stops the scan,
an object or array is spread over the accumulator (the entries of the
current, lower-precedence layer overriding the accumulated ones). -/
def getComplexLoop (opts : ConfigOptions) (parts : List String) :
    List (LayerName × JSVal) → List (String × JSVal) →
    Except JSErr (Option JSVal × List (String × JSVal))
  | [], resObj => .ok (none, resObj)
  | (_, layer) :: rest, resObj =>
      if truthy layer = false then getComplexLoop opts parts rest resObj
      else
        match walkParts layer parts with
        | .error e => .error e
        | .ok none => getComplexLoop opts parts rest resObj
        | .ok (some cur) =>
            if cur = .vnull ∧ opts.acceptNull = false then
              getComplexLoop opts parts rest resObj
            else if cur = .vundef ∧ opts.acceptUndefined = false then
              getComplexLoop opts parts rest resObj
            else if isFinalValue cur then .ok (some cur, resObj)
            else getComplexLoop opts parts rest (spreadInto resObj cur)

/-- __getComplex: scan the layers in descending precedence; a scalar found
first wins, otherwise a nonempty accumulated object is returned, otherwise
fallback, silent undefined or the not-found handler on the unsplit key. -/
def __getComplex (inst : Instance) (key : String) (fallback : JSVal) (silent : Bool) :
    Except JSErr JSVal :=
  let parts := splitDotExceptDouble key
  match getComplexLoop inst.options parts inst.layers.reverse [] with
  | .error e => .error e
  | .ok (some cur, _) => .ok cur
  | .ok (none, resObj) =>
      if resObj ≠ [] then .ok (.vobj false resObj)
      else if fallback ≠ .vundef then .ok fallback
      else if silent then .ok .vundef
      else .error (.notFound ("Key not found: " ++ key))

/-- The layer scan of __getAll. -/
def getAllLoop (opts : ConfigOptions) (parts : List String) :
    List (LayerName × JSVal) → Except JSErr (List (LayerName × JSVal))
  | [] => .ok []
  | (n, layer) :: rest =>
      if truthy layer = false then getAllLoop opts parts rest
      else
        match walkParts layer parts with
        | .error e => .error e
        | .ok none => getAllLoop opts parts rest
        | .ok (some cur) =>
            if cur = .vnull ∧ opts.acceptNull = false then getAllLoop opts parts rest
            else if cur = .vundef ∧ opts.acceptUndefined = false then getAllLoop opts parts rest
            else
              match getAllLoop opts parts rest with
              | .error e => .error e
              | .ok l => .ok ((n, cur) :: l)

/-- __getAll: every layer value at the key in descending precedence. -/
def __getAll (inst : Instance) (key : String) : Except JSErr (List (LayerName × JSVal)) :=
  getAllLoop inst.options (splitDotExceptDouble key) inst.layers.reverse

/-- One per-layer entry of an inspection result. -/
structure LayerEntry where
  layer : LayerName
  value : JSVal
  isPresent : Bool
  isActive : Bool
deriving Repr, DecidableEq

/-- The inspection result: resolved value and source plus the per-layer
breakdown in descending precedence. -/
structure InspectionResult where
  key : String
  resolvedValue : JSVal
  resolvedSource : LayerName
  layers : List LayerEntry
deriving Repr, DecidableEq

/-- The raw value a layer shows at a key together with its acceptance: the
pair (isPresent, value) computed by the single-segment branch of __inspect
for one layer, before the activity decision. -/
def inspectFlatStep (opts : ConfigOptions) (key : String) (layer : JSVal)
    (present₀ : Bool) : Bool × JSVal :=
  (present₀ && acceptedVal opts (if present₀ then jsGetProp layer key else .vundef),
   if present₀ then jsGetProp layer key else .vundef)

/-- The single-segment branch of __inspect.  Note that it tests the whole
unsplit key against each layer.  The in operator on a truthy primitive
fragment raises a TypeError. -/
def inspectFlatLoop (opts : ConfigOptions) (key : String) :
    List (LayerName × JSVal) → Bool →
    Except JSErr (List LayerEntry × Option (JSVal × LayerName))
  | [], _ => .ok ([], none)
  | (n, layer) :: rest, found =>
      match (if truthy layer then jsHasProp layer key else .ok false) with
      | .error e => .error e
      | .ok present₀ =>
          match inspectFlatLoop opts key rest
              (found || ((inspectFlatStep opts key layer present₀).1 && !found)) with
          | .error e => .error e
          | .ok er =>
              .ok (⟨n,
                  if (inspectFlatStep opts key layer present₀).1 then
                    (inspectFlatStep opts key layer present₀).2
                  else .vundef,
                  (inspectFlatStep opts key layer present₀).1,
                  (inspectFlatStep opts key layer present₀).1 && !found⟩ :: er.1,
                if (inspectFlatStep opts key layer present₀).1 && !found then
                  some ((inspectFlatStep opts key layer present₀).2, n)
                else er.2)

/-- The walk of the multi-segment branch of __inspect, guarded by a typeof
test, hence total. -/
def walkTyped : JSVal → List String → Option JSVal
  | v, [] => some v
  | v, p :: rest =>
      match v with
      | .vobj _ _ => if jsHasPropB v p then walkTyped (jsGetProp v p) rest else none
      | .varr _ _ _ _ => if jsHasPropB v p then walkTyped (jsGetProp v p) rest else none
      | _ => none

/-- The walk outcome of the multi-segment branch of __inspect for one
layer: the pair (found, current) after the acceptance policy and the
resetting of current to undefined on failure. -/
def inspectDeepStep (opts : ConfigOptions) (parts : List String) (frag : JSVal) :
    Bool × JSVal :=
  ((walkTyped frag parts).isSome && acceptedVal opts ((walkTyped frag parts).getD .vundef),
   if (walkTyped frag parts).isSome &&
       acceptedVal opts ((walkTyped frag parts).getD .vundef) then
     (walkTyped frag parts).getD .vundef
   else .vundef)

/-- The multi-segment branch of __inspect: a layer is active when its walk
fully succeeds, passes the acceptance policy, and the resolved value
recorded so far is still undefined.  A falsy fragment is skipped without
an entry. -/
def inspectDeepLoop (opts : ConfigOptions) (parts : List String) :
    List (LayerName × JSVal) → JSVal → LayerName →
    List LayerEntry × JSVal × LayerName
  | [], resolvedV, resolvedSrc => ([], resolvedV, resolvedSrc)
  | (n, frag) :: rest, resolvedV, resolvedSrc =>
      if truthy frag = false then inspectDeepLoop opts parts rest resolvedV resolvedSrc
      else
        (⟨n, (inspectDeepStep opts parts frag).2, (inspectDeepStep opts parts frag).1,
            (inspectDeepStep opts parts frag).1 && (resolvedV = .vundef)⟩ ::
          (inspectDeepLoop opts parts rest
            (if (inspectDeepStep opts parts frag).1 && (resolvedV = .vundef) then
              (inspectDeepStep opts parts frag).2
            else resolvedV)
            (if (inspectDeepStep opts parts frag).1 && (resolvedV = .vundef) then n
            else resolvedSrc)).1,
          (inspectDeepLoop opts parts rest
            (if (inspectDeepStep opts parts frag).1 && (resolvedV = .vundef) then
              (inspectDeepStep opts parts frag).2
            else resolvedV)
            (if (inspectDeepStep opts parts frag).1 && (resolvedV = .vundef) then n
            else resolvedSrc)).2)

/-- __inspect over a string key. -/
def __inspect (inst : Instance) (key : String) : Except JSErr InspectionResult :=
  let keyParts := splitDotExceptDouble key
  let precedence := inst.layers.reverse
  if keyParts.length < 1 then
    .ok { key := key, resolvedValue := .vundef, resolvedSource := .str ""
          layers := precedence.map (fun p => ⟨p.1, .vundef, false, false⟩) }
  else if keyParts.length = 1 then
    match inspectFlatLoop inst.options key precedence false with
    | .error e => .error e
    | .ok (entries, resolved) =>
        .ok { key := key
              resolvedValue := (resolved.map Prod.fst).getD .vundef
              resolvedSource := (resolved.map Prod.snd).getD (.str "")
              layers := entries }
  else
    let r := inspectDeepLoop inst.options keyParts precedence .vundef (.str "")
    .ok { key := key, resolvedValue := r.2.1, resolvedSource := r.2.2, layers := r.1 }

/-- Insertion sort of record entries by numeric index value, used to model
the integer-first key order of Object.entries. -/
def insertByIdx (p : String × JSVal) :
    List (String × JSVal) → List (String × JSVal)
  | [] => [p]
  | q :: rest =>
      if indexOfStr p.1 < indexOfStr q.1 then p :: q :: rest else q :: insertByIdx p rest

def sortByIdx : List (String × JSVal) → List (String × JSVal)
  | [] => []
  | p :: rest => insertByIdx p (sortByIdx rest)

/-- Object.entries of a record keyed by strings and symbols: symbol keys
are omitted; string keys that are canonical array indices come first in
ascending numeric order, the remaining string keys in insertion order. -/
def recordEntries (r : List (LayerName × JSVal)) : List (String × JSVal) :=
  let strs := r.filterMap (fun p =>
    match p.1 with
    | .str s => some (s, p.2)
    | .sym _ => none)
  sortByIdx (strs.filter (fun p => isIndexStr p.1))
    ++ strs.filter (fun p => !isIndexStr p.1)

/-- The three argument shapes of __derive. -/
inductive DeriveArgs where
  | optsOnly (p : OptionsPatch)
  | layerOnly (name : String) (frag : JSVal)
  | layerAndOpts (name : String) (frag : JSVal) (p : OptionsPatch)
deriving Repr, DecidableEq

/-- __derive: copy the store into a plain record, optionally insert or
replace the named layer, re-enumerate the record with Object.entries, and
build a fresh instance with the patched options. -/
def __derive (inst : Instance) (args : DeriveArgs) :
    Except JSErr (Instance × List ArrWrite) :=
  let newLayers := inst.layers.foldl (fun acc p => storeSet acc p.1 p.2) []
  match args with
  | .optsOnly p =>
      fromLayers ((recordEntries newLayers).map (fun q => (LayerName.str q.1, q.2)))
        (applyPatch inst.options p)
  | .layerOnly name frag =>
      fromLayers
        ((recordEntries (storeSet newLayers (.str name) frag)).map
          (fun q => (LayerName.str q.1, q.2)))
        inst.options
  | .layerAndOpts name frag p =>
      fromLayers
        ((recordEntries (storeSet newLayers (.str name) frag)).map
          (fun q => (LayerName.str q.1, q.2)))
        (applyPatch inst.options p)

deriving instance DecidableEq for Except

/-- What the proxy get trap returns for a string key. -/
inductive ProxyGet where
  | method (name : String)
  | value (r : Except JSErr JSVal)
deriving Repr, DecidableEq

/-- The get trap: the three reserved method names, then the reserved
awaitable probe name then (returned as undefined when the flattened
snapshot holds no such key), then flat or nested resolution. -/
def proxyGet (inst : Instance) (key : String) : ProxyGet :=
  if key = "__inspect" ∨ key = "__derive" ∨ key = "getAll" then .method key
  else if key = "then" ∧ jsGetProp inst.flattened "then" = .vundef then .value (.ok .vundef)
  else
    match splitDotExceptDouble key with
    | [k] => .value (__getFlat inst k .vundef false)
    | _ :: _ :: _ => .value (__getComplex inst key .vundef false)
    | [] => .value (.ok .vundef)

mutual

/-- Apply one logged array write through array identity: every array with
the written id gets the logged contents. -/
def applyWriteVal (w : ArrWrite) : JSVal → JSVal
  | .vobj fr fields => .vobj fr (applyWriteFields w fields)
  | .varr i fr elems props =>
      if i = w.id then .varr i fr w.elems w.props
      else .varr i fr (applyWriteElems w elems) (applyWriteFields w props)
  | v => v

def applyWriteElems (w : ArrWrite) : List JSVal → List JSVal
  | [] => []
  | v :: rest => applyWriteVal w v :: applyWriteElems w rest

def applyWriteFields (w : ArrWrite) : List (String × JSVal) → List (String × JSVal)
  | [] => []
  | (k, v) :: rest => (k, applyWriteVal w v) :: applyWriteFields w rest

end

/-- Apply a write log in order. -/
def applyWritesVal (ws : List ArrWrite) (v : JSVal) : JSVal :=
  ws.foldl (fun acc w => applyWriteVal w acc) v

/-- The state of an instance after in-place array mutations elsewhere have
been propagated through array identity. -/
def applyWritesInstance (ws : List ArrWrite) (inst : Instance) : Instance :=
  { inst with
    layers := inst.layers.map (fun p => (p.1, applyWritesVal ws p.2))
    flattened := applyWritesVal ws inst.flattened }

/-- A property-assignment chain frag.p1.p2....field = x as a caller would
write it against a layer fragment: the path is read, the final write is a
strict-mode property set checked against the frozen flag of the object it
lands on.  Reads on null or undefined raise a TypeError. -/
def jsSetPath (v : JSVal) : List String → String → JSVal →
    Except JSErr (JSVal × List ArrWrite)
  | [], field, x => jsSetProp v field x
  | p :: rest, field, x =>
      match v with
      | .vnull => .error (.typeError ("Cannot read properties of null reading " ++ p))
      | .vundef => .error (.typeError ("Cannot read properties of undefined reading " ++ p))
      | _ =>
          match jsSetPath (jsGetProp v p) rest field x with
          | .error e => .error e
          | .ok (child, w) =>
              let r := jsReplaceProp v p child
              .ok (r.1, w ++ r.2)

/-- A caller mutating a field inside a named layer fragment of an
instance; array mutations propagate through identity to the snapshot. -/
def assignLayerField (inst : Instance) (lname : LayerName) (path : List String)
    (field : String) (x : JSVal) : Except JSErr Instance :=
  match storeGet inst.layers lname with
  | none => .error (.typeError "Cannot read properties of undefined")
  | some frag =>
      match jsSetPath frag path field x with
      | .error e => .error e
      | .ok (frag', w) =>
          .ok (applyWritesInstance w
            { inst with layers := storeSet inst.layers lname frag' })

/-- Whether an Except value is a success. -/
def isOkE {α : Type} : Except JSErr α → Bool
  | .ok _ => true
  | .error _ => false

/-- The effect, at one key, of merging a list of source entries over an
accumulated optional value: every accepted entry at the key overwrites it,
every other entry leaves it. -/
def entriesFoldAt (opts : ConfigOptions) (k : String)
    (es : List (String × JSVal)) (init : Option JSVal) : Option JSVal :=
  es.foldl
    (fun a q => if q.1 = k then (if acceptedVal opts q.2 then some q.2 else a) else a)
    init

/-- The fold the flattening performs at one key: scanning layers from
lowest to highest precedence, every accepted own entry at the key
overwrites the accumulator, every suppressed or missing one leaves it. -/
def lastAcceptedFrom (opts : ConfigOptions) (k : String)
    (layers : List (LayerName × JSVal)) (init : Option JSVal) : Option JSVal :=
  layers.foldl (fun acc p => entriesFoldAt opts k (forInEntries p.2) acc) init

def lastAcceptedAt (opts : ConfigOptions) (k : String)
    (layers : List (LayerName × JSVal)) : Option JSVal :=
  lastAcceptedFrom opts k layers none

/-- The specification-side value of a single-segment key: the value of the
highest-precedence layer (the input list is in descending precedence) in
which the key is present and passes the acceptance policy. -/
def firstAcceptedDesc (opts : ConfigOptions) (k : String) :
    List (LayerName × JSVal) → Option JSVal
  | [] => none
  | p :: rest =>
      match objLookup (forInEntries p.2) k with
      | some v => if acceptedVal opts v then some v else firstAcceptedDesc opts k rest
      | none => firstAcceptedDesc opts k rest

/-- Every own entry at the key, in every layer, carries a value that is
neither a plain object nor an array. -/
def scalarsAtKey (k : String) (layers : List (LayerName × JSVal)) : Bool :=
  layers.all (fun p => (forInEntries p.2).all (fun q => q.1 ≠ k || isFinalValue q.2))

/-- Every layer holds at most one own entry at the key (JavaScript objects
cannot repeat a key; association lists can). -/
def keyWF (k : String) (layers : List (LayerName × JSVal)) : Bool :=
  layers.all (fun p => ((forInEntries p.2).filter (fun q => q.1 = k)).length ≤ 1)

/-- The final value a single layer contributes to the nested-path scan: its
walked value when the walk fully succeeds, passes the acceptance policy,
and ends in a value that stops the scan. -/
def layerFinalAt (opts : ConfigOptions) (parts : List String) (layer : JSVal) :
    Option JSVal :=
  if truthy layer = false then none
  else
    match walkParts layer parts with
    | .ok (some v) =>
        if acceptedVal opts v && isFinalValue v then some v else none
    | _ => none

/-- The first layer, in descending precedence, contributing a final value
to the nested-path scan. -/
def firstFinalAccepted (opts : ConfigOptions) (parts : List String) :
    List (LayerName × JSVal) → Option JSVal
  | [] => none
  | p :: rest =>
      match layerFinalAt opts parts p.2 with
      | some v => some v
      | none => firstFinalAccepted opts parts rest

/-- The number of layers an inspection result marks active. -/
def countActive (r : InspectionResult) : Nat :=
  r.layers.countP (fun e => e.isActive)

mutual

/-- No frozen flag is set anywhere in the value (the state of data built
from fresh literals). -/
def noFrozenFlags : JSVal → Bool
  | .vobj fr fields => !fr && noFrozenFlagsFields fields
  | .varr _ fr elems props => !fr && noFrozenFlagsElems elems && noFrozenFlagsFields props
  | _ => true

def noFrozenFlagsElems : List JSVal → Bool
  | [] => true
  | v :: rest => noFrozenFlags v && noFrozenFlagsElems rest

def noFrozenFlagsFields : List (String × JSVal) → Bool
  | [] => true
  | (_, v) :: rest => noFrozenFlags v && noFrozenFlagsFields rest

end

mutual

/-- The value contains no array anywhere. -/
def noArraysIn : JSVal → Bool
  | .vobj _ fields => noArraysInFields fields
  | .varr _ _ _ _ => false
  | _ => true

def noArraysInFields : List (String × JSVal) → Bool
  | [] => true
  | (_, v) :: rest => noArraysIn v && noArraysInFields rest

end

mutual

/-- Every object and array in the value is frozen. -/
def deeplyFrozen : JSVal → Bool
  | .vobj fr fields => fr && deeplyFrozenFields fields
  | .varr _ fr elems props => fr && deeplyFrozenElems elems && deeplyFrozenFields props
  | _ => true

def deeplyFrozenElems : List JSVal → Bool
  | [] => true
  | v :: rest => deeplyFrozen v && deeplyFrozenElems rest

def deeplyFrozenFields : List (String × JSVal) → Bool
  | [] => true
  | (_, v) :: rest => deeplyFrozen v && deeplyFrozenFields rest

end

/-! Basic lemmas about the object operations and the acceptance policy. -/

theorem objLookup_objSet_self (f : List (String × JSVal)) (k : String) (v : JSVal) :
    objLookup (objSet f k v) k = some v := by
  induction f with
  | nil => simp [objSet, objLookup]
  | cons p rest ih =>
      obtain ⟨k', v'⟩ := p
      by_cases h : k' = k
      · simp [objSet, h, objLookup]
      · simp [objSet, h, objLookup, ih]

theorem objLookup_objSet_ne (f : List (String × JSVal)) (k k' : String) (v : JSVal)
    (h : k' ≠ k) : objLookup (objSet f k' v) k = objLookup f k := by
  induction f with
  | nil => simp [objSet, objLookup, h]
  | cons p rest ih =>
      obtain ⟨k₀, v₀⟩ := p
      by_cases h0 : k₀ = k'
      · simp [objSet, h0, objLookup, h]
      · simp only [objSet, h0, if_false]
        by_cases h1 : k₀ = k
        · simp [objLookup, h1]
        · simp [objLookup, h1, ih]

theorem acceptedVal_vnull (opts : ConfigOptions) :
    acceptedVal opts .vnull = opts.acceptNull := by
  simp [acceptedVal]

theorem acceptedVal_vundef (opts : ConfigOptions) :
    acceptedVal opts .vundef = opts.acceptUndefined := by
  simp [acceptedVal]

theorem acceptedVal_of_ne (opts : ConfigOptions) (v : JSVal)
    (h1 : v ≠ .vnull) (h2 : v ≠ .vundef) : acceptedVal opts v = true := by
  simp [acceptedVal, h1, h2]

theorem acceptedVal_true_of_not_skipped (opts : ConfigOptions) (v : JSVal)
    (h1 : ¬(v = .vnull ∧ opts.acceptNull = false))
    (h2 : ¬(v = .vundef ∧ opts.acceptUndefined = false)) :
    acceptedVal opts v = true := by
  by_cases hn : v = .vnull
  · subst hn
    rw [acceptedVal_vnull]
    rcases Bool.eq_false_or_eq_true opts.acceptNull with h | h
    · exact h
    · exact absurd ⟨rfl, h⟩ h1
  · by_cases hu : v = .vundef
    · subst hu
      rw [acceptedVal_vundef]
      rcases Bool.eq_false_or_eq_true opts.acceptUndefined with h | h
      · exact h
      · exact absurd ⟨rfl, h⟩ h2
    · exact acceptedVal_of_ne opts v hn hu

theorem isMergeableObj_eq_false_of_isFinalValue (v : JSVal)
    (h : isFinalValue v = true) : isMergeableObj v = false := by
  cases v <;> simp_all [isFinalValue, isMergeableObj]

/-! Reduction lemmas for one deepMerge source entry over a plain-object
target, and their combination into the effect at one key. -/

theorem deepMergeEntry_skip (opts : ConfigOptions) (t : JSVal) (k₁ : String) (v : JSVal)
    (hacc : acceptedVal opts v = false) :
    deepMergeEntry opts t k₁ v = .ok (t, []) := by
  rw [deepMergeEntry.eq_def]
  by_cases hn : v = .vnull
  · subst hn
    rw [acceptedVal_vnull] at hacc
    rw [if_pos ⟨rfl, hacc⟩]
  · by_cases hu : v = .vundef
    · subst hu
      rw [acceptedVal_vundef] at hacc
      rw [if_neg (by simp), if_pos ⟨rfl, hacc⟩]
    · exact absurd (acceptedVal_of_ne opts v hn hu) (by simp [hacc])

theorem deepMergeEntry_scalar (opts : ConfigOptions) (fields : List (String × JSVal))
    (k₁ : String) (v : JSVal)
    (hacc : acceptedVal opts v = true) (hmv : isMergeableObj v = false) :
    deepMergeEntry opts (.vobj false fields) k₁ v =
      .ok (.vobj false (objSet fields k₁ v), []) := by
  rw [deepMergeEntry.eq_def]
  rw [if_neg (by rintro ⟨h1, h2⟩; subst h1; rw [acceptedVal_vnull, h2] at hacc; cases hacc),
    if_neg (by rintro ⟨h1, h2⟩; subst h1; rw [acceptedVal_vundef, h2] at hacc; cases hacc)]
  cases v with
  | vobj a b => exact absurd hmv (by simp [isMergeableObj])
  | vnull => simp [jsSetProp]
  | vundef => simp [jsSetProp]
  | vbool b => simp [jsSetProp]
  | vnum n => simp [jsSetProp]
  | vstr s => simp [jsSetProp]
  | varr i f e p => simp [jsSetProp]

theorem deepMergeEntry_scalar_frozen (opts : ConfigOptions)
    (fields : List (String × JSVal)) (k₁ : String) (v : JSVal)
    (hacc : acceptedVal opts v = true) (hmv : isMergeableObj v = false) :
    deepMergeEntry opts (.vobj true fields) k₁ v =
      .error (.typeError ("Cannot assign to read only property " ++ k₁)) := by
  rw [deepMergeEntry.eq_def]
  rw [if_neg (by rintro ⟨h1, h2⟩; subst h1; rw [acceptedVal_vnull, h2] at hacc; cases hacc),
    if_neg (by rintro ⟨h1, h2⟩; subst h1; rw [acceptedVal_vundef, h2] at hacc; cases hacc)]
  cases v with
  | vobj a b => exact absurd hmv (by simp [isMergeableObj])
  | vnull => simp [jsSetProp]
  | vundef => simp [jsSetProp]
  | vbool b => simp [jsSetProp]
  | vnum n => simp [jsSetProp]
  | vstr s => simp [jsSetProp]
  | varr i f e p => simp [jsSetProp]

theorem deepMergeEntry_vobj_eq (opts : ConfigOptions) (fr : Bool)
    (fields : List (String × JSVal)) (k₁ : String) (vfr : Bool)
    (vfields : List (String × JSVal)) :
    deepMergeEntry opts (.vobj fr fields) k₁ (.vobj vfr vfields) =
      (if (objLookup fields k₁).isSome then
        match deepMergeList opts (jsGetProp (.vobj fr fields) k₁) vfields with
        | .error e => .error e
        | .ok mw => .ok (.vobj fr (objSet fields k₁ mw.1), mw.2 ++ [])
      else if fr = true then
        .error (.typeError ("Cannot assign to read only property " ++ k₁))
      else
        match deepMergeList opts
            (jsGetProp (.vobj fr (objSet fields k₁ (.vobj false []))) k₁) vfields with
        | .error e => .error e
        | .ok mw =>
            .ok (.vobj fr (objSet (objSet fields k₁ (.vobj false [])) k₁ mw.1),
              [] ++ mw.2 ++ [])) := by
  rw [deepMergeEntry.eq_def]
  rw [if_neg (by simp), if_neg (by simp)]
  simp only [jsHasProp]
  by_cases hhas : (objLookup fields k₁).isSome
  · rw [if_pos hhas, if_pos hhas]
    cases hrec : deepMergeList opts (jsGetProp (.vobj fr fields) k₁) vfields with
    | error e => rfl
    | ok mr => rfl
  · rw [if_neg hhas, if_neg hhas]
    simp only [jsSetProp]
    by_cases hfr : fr = true
    · rw [if_pos hfr, if_pos hfr]
    · rw [if_neg hfr, if_neg hfr]
      change (match deepMergeList opts
          (jsGetProp (JSVal.vobj fr (objSet fields k₁ (.vobj false []))) k₁) vfields with
        | Except.error e => Except.error e
        | Except.ok (merged, w) =>
            Except.ok
              ((jsReplaceProp (JSVal.vobj fr (objSet fields k₁ (.vobj false []))) k₁ merged).1,
                [] ++ w ++
                  (jsReplaceProp (JSVal.vobj fr (objSet fields k₁ (.vobj false []))) k₁
                      merged).2)) = _
      cases hrec : deepMergeList opts
          (jsGetProp (.vobj fr (objSet fields k₁ (.vobj false []))) k₁) vfields with
      | error e => rfl
      | ok mr => rfl

theorem deepMergeEntry_vobj_shape (opts : ConfigOptions) (fr : Bool)
    (fields : List (String × JSVal)) (k₁ : String) (vfr : Bool)
    (vfields : List (String × JSVal)) (t₁ : JSVal) (w₁ : List ArrWrite)
    (hok : deepMergeEntry opts (.vobj fr fields) k₁ (.vobj vfr vfields) = .ok (t₁, w₁)) :
    ∃ fields₁, t₁ = .vobj fr fields₁ ∧
      ∀ k, k₁ ≠ k → objLookup fields₁ k = objLookup fields k := by
  rw [deepMergeEntry_vobj_eq] at hok
  by_cases hhas : (objLookup fields k₁).isSome
  · rw [if_pos hhas] at hok
    cases hrec : deepMergeList opts (jsGetProp (.vobj fr fields) k₁) vfields with
    | error e => rw [hrec] at hok; exact absurd hok (by simp)
    | ok mr =>
        rw [hrec] at hok
        obtain ⟨ht, -⟩ := Prod.mk.injEq .. ▸ Except.ok.injEq .. ▸ hok
        exact ⟨objSet fields k₁ mr.1, ht.symm,
          fun k hk => objLookup_objSet_ne fields k k₁ mr.1 hk⟩
  · rw [if_neg hhas] at hok
    by_cases hfr : fr = true
    · rw [if_pos hfr] at hok
      exact absurd hok (by simp)
    · rw [if_neg hfr] at hok
      cases hrec : deepMergeList opts
          (jsGetProp (.vobj fr (objSet fields k₁ (.vobj false []))) k₁) vfields with
      | error e => rw [hrec] at hok; exact absurd hok (by simp)
      | ok mr =>
          rw [hrec] at hok
          obtain ⟨ht, -⟩ := Prod.mk.injEq .. ▸ Except.ok.injEq .. ▸ hok
          refine ⟨objSet (objSet fields k₁ (.vobj false [])) k₁ mr.1, ht.symm,
            fun k hk => ?_⟩
          rw [objLookup_objSet_ne _ k k₁ _ hk, objLookup_objSet_ne _ k k₁ _ hk]

theorem deepMergeEntry_lookup (opts : ConfigOptions) (k : String)
    (fr : Bool) (fields : List (String × JSVal)) (k₁ : String) (v : JSVal)
    (t₁ : JSVal) (w₁ : List ArrWrite)
    (hok : deepMergeEntry opts (.vobj fr fields) k₁ v = .ok (t₁, w₁))
    (hnm : k₁ = k → isMergeableObj v = false) :
    ∃ fields₁, t₁ = .vobj fr fields₁ ∧
      objLookup fields₁ k =
        (if k₁ = k then (if acceptedVal opts v then some v else objLookup fields k)
         else objLookup fields k) := by
  rcases Bool.eq_false_or_eq_true (acceptedVal opts v) with hacc | hacc
  · rcases Bool.eq_false_or_eq_true (isMergeableObj v) with hmv | hmv
    · cases v with
      | vobj vfr vfields =>
          have hne : k₁ ≠ k := by
            intro h
            rw [hnm h] at hmv
            cases hmv
          obtain ⟨fields₁, ht, hl⟩ :=
            deepMergeEntry_vobj_shape opts fr fields k₁ vfr vfields t₁ w₁ hok
          exact ⟨fields₁, ht, by rw [hl k hne, if_neg hne]⟩
      | vnull => cases hmv
      | vundef => cases hmv
      | vbool b => cases hmv
      | vnum n => cases hmv
      | vstr s => cases hmv
      | varr i f e p => cases hmv
    · rcases Bool.eq_false_or_eq_true fr with hfr | hfr
      · subst hfr
        rw [deepMergeEntry_scalar_frozen opts fields k₁ v hacc hmv] at hok
        exact absurd hok (by simp)
      · subst hfr
        rw [deepMergeEntry_scalar opts fields k₁ v hacc hmv] at hok
        obtain ⟨ht, -⟩ := Prod.mk.injEq .. ▸ Except.ok.injEq .. ▸ hok
        refine ⟨objSet fields k₁ v, ht.symm, ?_⟩
        by_cases hk : k₁ = k
        · subst hk
          rw [objLookup_objSet_self, if_pos rfl, hacc, if_pos rfl]
        · rw [objLookup_objSet_ne _ _ _ _ hk, if_neg hk]
  · rw [deepMergeEntry_skip opts _ k₁ v hacc] at hok
    obtain ⟨ht, -⟩ := Prod.mk.injEq .. ▸ Except.ok.injEq .. ▸ hok
    exact ⟨fields, ht.symm, by simp [hacc]⟩

theorem deepMergeList_lookup (opts : ConfigOptions) (k : String) :
    ∀ (es : List (String × JSVal)) (fr : Bool) (fields : List (String × JSVal))
      (t' : JSVal) (w : List ArrWrite),
    deepMergeList opts (.vobj fr fields) es = .ok (t', w) →
    (∀ p ∈ es, p.1 = k → isMergeableObj p.2 = false) →
    ∃ fields', t' = .vobj fr fields' ∧
      objLookup fields' k = entriesFoldAt opts k es (objLookup fields k) := by
  intro es
  induction es with
  | nil =>
      intro fr fields t' w hok hnm
      simp only [deepMergeList] at hok
      obtain ⟨ht, -⟩ := Prod.mk.injEq .. ▸ Except.ok.injEq .. ▸ hok
      exact ⟨fields, ht.symm, rfl⟩
  | cons e rest ih =>
      intro fr fields t' w hok hnm
      obtain ⟨k₁, v⟩ := e
      simp only [deepMergeList] at hok
      cases hentry : deepMergeEntry opts (.vobj fr fields) k₁ v with
      | error er => rw [hentry] at hok; exact absurd hok (by simp)
      | ok p₁ =>
          obtain ⟨t₁, w₁⟩ := p₁
          rw [hentry] at hok
          have hok2 : (match deepMergeList opts t₁ rest with
              | Except.error e => Except.error e
              | Except.ok (t₂, w₂) => Except.ok (t₂, w₁ ++ w₂)) = Except.ok (t', w) := hok
          cases hlist : deepMergeList opts t₁ rest with
          | error er => rw [hlist] at hok2; exact absurd hok2 (by simp)
          | ok p₂ =>
              obtain ⟨t₂, w₂⟩ := p₂
              rw [hlist] at hok2
              obtain ⟨ht, -⟩ := Prod.mk.injEq .. ▸ Except.ok.injEq .. ▸ hok2
              obtain ⟨fields₁, ht₁, hl₁⟩ :=
                deepMergeEntry_lookup opts k fr fields k₁ v t₁ w₁ hentry
                  (fun h => hnm (k₁, v) (by simp) h)
              subst ht₁
              obtain ⟨fields', ht₂, hl₂⟩ := ih fr fields₁ t₂ w₂ hlist
                (fun p hp h => hnm p (by simp [hp]) h)
              refine ⟨fields', by rw [← ht]; exact ht₂, ?_⟩
              rw [hl₂, hl₁]
              simp only [entriesFoldAt, List.foldl_cons]

theorem deepMerge_lookup (opts : ConfigOptions) (k : String) (fr : Bool)
    (fields : List (String × JSVal)) (frag : JSVal) (t' : JSVal) (w : List ArrWrite)
    (hok : deepMerge opts (.vobj fr fields) frag = .ok (t', w))
    (hnm : ∀ p ∈ forInEntries frag, p.1 = k → isMergeableObj p.2 = false) :
    ∃ fields', t' = .vobj fr fields' ∧
      objLookup fields' k = entriesFoldAt opts k (forInEntries frag) (objLookup fields k) :=
  deepMergeList_lookup opts k (forInEntries frag) fr fields t' w hok hnm

theorem flattenLayers_lookup (opts : ConfigOptions) (k : String) :
    ∀ (layers : List (LayerName × JSVal)) (fr : Bool) (fields : List (String × JSVal))
      (flat : JSVal) (w : List ArrWrite),
    flattenLayers opts (.vobj fr fields) layers = .ok (flat, w) →
    (∀ p ∈ layers, ∀ q ∈ forInEntries p.2, q.1 = k → isMergeableObj q.2 = false) →
    ∃ fields', flat = .vobj fr fields' ∧
      objLookup fields' k = lastAcceptedFrom opts k layers (objLookup fields k) := by
  intro layers
  induction layers with
  | nil =>
      intro fr fields flat w hok hnm
      simp only [flattenLayers] at hok
      obtain ⟨ht, -⟩ := Prod.mk.injEq .. ▸ Except.ok.injEq .. ▸ hok
      exact ⟨fields, ht.symm, rfl⟩
  | cons p rest ih =>
      intro fr fields flat w hok hnm
      obtain ⟨n, frag⟩ := p
      simp only [flattenLayers] at hok
      cases hmerge : deepMerge opts (.vobj fr fields) frag with
      | error er => rw [hmerge] at hok; exact absurd hok (by simp)
      | ok p₁ =>
          obtain ⟨t₁, w₁⟩ := p₁
          rw [hmerge] at hok
          have hok2 : (match flattenLayers opts t₁ rest with
              | Except.error e => Except.error e
              | Except.ok (t₂, w₂) => Except.ok (t₂, w₁ ++ w₂)) = Except.ok (flat, w) := hok
          cases hrest : flattenLayers opts t₁ rest with
          | error er => rw [hrest] at hok2; exact absurd hok2 (by simp)
          | ok p₂ =>
              obtain ⟨t₂, w₂⟩ := p₂
              rw [hrest] at hok2
              obtain ⟨ht, -⟩ := Prod.mk.injEq .. ▸ Except.ok.injEq .. ▸ hok2
              obtain ⟨fields₁, ht₁, hl₁⟩ :=
                deepMerge_lookup opts k fr fields frag t₁ w₁ hmerge
                  (fun q hq h => hnm (n, frag) (by simp) q hq h)
              subst ht₁
              obtain ⟨fields', ht₂, hl₂⟩ := ih fr fields₁ t₂ w₂ hrest
                (fun p hp q hq h => hnm p (by simp [hp]) q hq h)
              refine ⟨fields', by rw [← ht]; exact ht₂, ?_⟩
              rw [hl₂, hl₁]
              simp only [lastAcceptedFrom, List.foldl_cons]

theorem scalarsAtKey_spec (k : String) (ls : List (LayerName × JSVal))
    (h : scalarsAtKey k ls = true) :
    ∀ p ∈ ls, ∀ q ∈ forInEntries p.2, q.1 = k → isFinalValue q.2 = true := by
  intro p hp q hq hk
  have h1 := (List.all_eq_true.mp h) p hp
  have h2 := (List.all_eq_true.mp h1) q hq
  rcases Bool.or_eq_true_iff.mp h2 with h3 | h3
  · exact absurd hk (by simpa using h3)
  · exact h3

theorem entriesFoldAt_inv (opts : ConfigOptions) (k : String)
    (es : List (String × JSVal)) (init : Option JSVal)
    (hsc : ∀ q ∈ es, q.1 = k → isFinalValue q.2 = true)
    (hinit : ∀ v, init = some v → isFinalValue v = true ∧ acceptedVal opts v = true) :
    ∀ v, entriesFoldAt opts k es init = some v →
      isFinalValue v = true ∧ acceptedVal opts v = true := by
  induction es generalizing init with
  | nil => exact hinit
  | cons q rest ih =>
      intro v hv
      refine ih _ (fun r hr h => hsc r (by simp [hr]) h) ?_ v hv
      intro v' hv'
      by_cases hk : q.1 = k
      · simp only [entriesFoldAt, List.foldl_cons, if_pos hk] at hv' ⊢
        by_cases hacc : acceptedVal opts q.2 = true
        · rw [if_pos hacc] at hv'
          obtain rfl : q.2 = v' := by injection hv'
          exact ⟨hsc q (by simp) hk, hacc⟩
        · rw [if_neg hacc] at hv'
          exact hinit v' hv'
      · simp only [if_neg hk] at hv'
        exact hinit v' hv'

theorem lastAcceptedFrom_inv (opts : ConfigOptions) (k : String)
    (ls : List (LayerName × JSVal)) (init : Option JSVal)
    (hsc : ∀ p ∈ ls, ∀ q ∈ forInEntries p.2, q.1 = k → isFinalValue q.2 = true)
    (hinit : ∀ v, init = some v → isFinalValue v = true ∧ acceptedVal opts v = true) :
    ∀ v, lastAcceptedFrom opts k ls init = some v →
      isFinalValue v = true ∧ acceptedVal opts v = true := by
  induction ls generalizing init with
  | nil => exact hinit
  | cons p rest ih =>
      intro v hv
      refine ih _ (fun r hr q hq h => hsc r (by simp [hr]) q hq h) ?_ v hv
      exact entriesFoldAt_inv opts k (forInEntries p.2) init
        (fun q hq h => hsc p (by simp) q hq h) hinit

theorem objLookup_deepFreezeFields (fields : List (String × JSVal)) (k : String) :
    objLookup (deepFreezeFields fields) k = (objLookup fields k).map deepFreeze := by
  induction fields with
  | nil => simp [deepFreezeFields, objLookup]
  | cons q rest ih =>
      obtain ⟨k', v⟩ := q
      by_cases h : k' = k
      · simp [deepFreezeFields, objLookup, h]
      · simp [deepFreezeFields, objLookup, h, ih]

theorem deepFreeze_of_final (v : JSVal) (h : isFinalValue v = true) :
    deepFreeze v = v := by
  cases v <;> simp_all [isFinalValue, deepFreeze]

theorem fromLayers_options (layers : List (LayerName × JSVal)) (opts : ConfigOptions)
    (inst : Instance) (w : List ArrWrite)
    (hok : fromLayers layers opts = .ok (inst, w)) : inst.options = opts := by
  rw [fromLayers] at hok
  cases hfl : flattenLayers opts (.vobj false []) (mapFromList layers) with
  | error e => rw [hfl] at hok; exact absurd hok (by simp)
  | ok p =>
      rw [hfl] at hok
      obtain ⟨ht, -⟩ := Prod.mk.injEq .. ▸ Except.ok.injEq .. ▸ hok
      rw [← ht]
      by_cases hfz : opts.freeze = true
      · rw [if_pos hfz]; rfl
      · rw [if_neg hfz]

theorem fromLayers_flat_lookup (layers : List (LayerName × JSVal))
    (opts : ConfigOptions) (inst : Instance) (w : List ArrWrite) (k : String)
    (hok : fromLayers layers opts = .ok (inst, w))
    (hsc : scalarsAtKey k (mapFromList layers) = true) :
    ∃ fr fields, inst.flattened = .vobj fr fields ∧
      objLookup fields k = lastAcceptedAt opts k (mapFromList layers) := by
  rw [fromLayers] at hok
  cases hfl : flattenLayers opts (.vobj false []) (mapFromList layers) with
  | error e => rw [hfl] at hok; exact absurd hok (by simp)
  | ok p =>
      obtain ⟨flat, w₀⟩ := p
      rw [hfl] at hok
      obtain ⟨ht, -⟩ := Prod.mk.injEq .. ▸ Except.ok.injEq .. ▸ hok
      have hspec := scalarsAtKey_spec k (mapFromList layers) hsc
      obtain ⟨fields₀, hflat, hlk⟩ :=
        flattenLayers_lookup opts k (mapFromList layers) false [] flat w₀ hfl
        (fun p hp q hq h => isMergeableObj_eq_false_of_isFinalValue q.2 (hspec p hp q hq h))
      subst hflat
      have hlk2 : objLookup fields₀ k = lastAcceptedAt opts k (mapFromList layers) := hlk
      by_cases hfz : opts.freeze = true
      · rw [if_pos hfz] at ht
        refine ⟨true, deepFreezeFields fields₀, by rw [← ht]; rfl, ?_⟩
        rw [objLookup_deepFreezeFields, hlk2]
        cases hv : lastAcceptedAt opts k (mapFromList layers) with
        | none => rfl
        | some v =>
            have hfin := lastAcceptedFrom_inv opts k (mapFromList layers) none
              hspec (by intro v h; cases h) v hv
            simp [deepFreeze_of_final v hfin.1]
      · rw [if_neg hfz] at ht
        exact ⟨false, fields₀, by rw [← ht], by rw [hlk2]⟩

mutual

theorem markArrsFrozen_of_noArrays (ids : List Nat) :
    (v : JSVal) → noArraysIn v = true → markArrsFrozen ids v = v
  | .vobj fr fields, h => by
      simp only [noArraysIn] at h
      simp [markArrsFrozen, markArrsFrozenFields_of_noArrays ids fields h]
  | .vnull, _ => rfl
  | .vundef, _ => rfl
  | .vbool b, _ => rfl
  | .vnum n, _ => rfl
  | .vstr s, _ => rfl

theorem markArrsFrozenFields_of_noArrays (ids : List Nat) :
    (l : List (String × JSVal)) → noArraysInFields l = true →
      markArrsFrozenFields ids l = l
  | [], _ => rfl
  | (k, v) :: rest, h => by
      simp only [noArraysInFields, Bool.and_eq_true] at h
      simp [markArrsFrozenFields, markArrsFrozen_of_noArrays ids v h.1,
        markArrsFrozenFields_of_noArrays ids rest h.2]

end

theorem map_markArrsFrozen_id (ids : List Nat) (l : List (LayerName × JSVal))
    (h : ∀ p ∈ l, noArraysIn p.2 = true) :
    l.map (fun p => (p.1, markArrsFrozen ids p.2)) = l := by
  induction l with
  | nil => rfl
  | cons q rest ih =>
      simp only [List.map_cons]
      rw [markArrsFrozen_of_noArrays _ q.2 (h q (by simp)),
        ih (fun r hr => h r (by simp [hr]))]

theorem fromLayers_layers (layers : List (LayerName × JSVal)) (opts : ConfigOptions)
    (inst : Instance) (w : List ArrWrite)
    (hok : fromLayers layers opts = .ok (inst, w))
    (hna : ∀ p ∈ mapFromList layers, noArraysIn p.2 = true) :
    inst.layers = mapFromList layers := by
  rw [fromLayers] at hok
  cases hfl : flattenLayers opts (.vobj false []) (mapFromList layers) with
  | error e => rw [hfl] at hok; exact absurd hok (by simp)
  | ok p =>
      rw [hfl] at hok
      obtain ⟨ht, -⟩ := Prod.mk.injEq .. ▸ Except.ok.injEq .. ▸ hok
      rw [← ht]
      by_cases hfz : opts.freeze = true
      · rw [if_pos hfz]
        exact map_markArrsFrozen_id _ (mapFromList layers) hna
      · rw [if_neg hfz]

theorem __getFlat_of_some (inst : Instance) (k : String) (fb : JSVal) (si : Bool)
    (fr : Bool) (fields : List (String × JSVal)) (v : JSVal)
    (hfl : inst.flattened = .vobj fr fields)
    (hlk : objLookup fields k = some v)
    (hv : ¬(v = .vundef ∧ inst.options.acceptUndefined = false)) :
    __getFlat inst k fb si = .ok v := by
  rw [__getFlat, hfl]
  simp only [jsGetProp, jsHasPropB, jsHasProp, hlk]
  rw [if_pos]
  · rfl
  · by_cases hu : v = .vundef
    · subst hu
      rcases Bool.eq_false_or_eq_true inst.options.acceptUndefined with h | h
      · exact Or.inr ⟨by simp, h⟩
      · exact absurd ⟨rfl, h⟩ hv
    · exact Or.inl (by simpa using hu)

theorem __getFlat_notfound (inst : Instance) (k : String) (fb : JSVal) (si : Bool)
    (fr : Bool) (fields : List (String × JSVal))
    (hfl : inst.flattened = .vobj fr fields)
    (h : objLookup fields k = none ∨
      (objLookup fields k = some .vundef ∧ inst.options.acceptUndefined = false)) :
    __getFlat inst k fb si =
      (if fb ≠ .vundef then .ok fb
       else if si then .ok .vundef
       else .error (.notFound ("Key not found: " ++ k))) := by
  rw [__getFlat, hfl]
  rcases h with h | ⟨h, hu⟩
  · simp only [jsGetProp, jsHasPropB, jsHasProp, h]
    rw [if_neg]
    rintro (h1 | ⟨h2, -⟩)
    · exact h1 rfl
    · simp at h2
  · simp only [jsGetProp, jsHasPropB, jsHasProp, h]
    rw [if_neg]
    rintro (h1 | ⟨-, h2⟩)
    · exact h1 rfl
    · rw [hu] at h2; cases h2

theorem acceptedVal_false_cases (opts : ConfigOptions) (v : JSVal)
    (h : acceptedVal opts v = false) :
    (v = .vnull ∧ opts.acceptNull = false) ∨
      (v = .vundef ∧ opts.acceptUndefined = false) := by
  cases v with
  | vnull =>
      rw [acceptedVal_vnull] at h
      exact Or.inl ⟨rfl, h⟩
  | vundef =>
      rw [acceptedVal_vundef] at h
      exact Or.inr ⟨rfl, h⟩
  | vbool b => rw [acceptedVal_of_ne opts _ (by simp) (by simp)] at h; cases h
  | vnum n => rw [acceptedVal_of_ne opts _ (by simp) (by simp)] at h; cases h
  | vstr s => rw [acceptedVal_of_ne opts _ (by simp) (by simp)] at h; cases h
  | varr i f e p => rw [acceptedVal_of_ne opts _ (by simp) (by simp)] at h; cases h
  | vobj f fs => rw [acceptedVal_of_ne opts _ (by simp) (by simp)] at h; cases h

theorem entriesFoldAt_of_absent (opts : ConfigOptions) (k : String)
    (es : List (String × JSVal)) (init : Option JSVal)
    (h : ∀ q ∈ es, q.1 ≠ k) : entriesFoldAt opts k es init = init := by
  induction es generalizing init with
  | nil => rfl
  | cons q rest ih =>
      simp only [entriesFoldAt, List.foldl_cons, if_neg (h q (by simp))]
      exact ih init (fun r hr => h r (by simp [hr]))

theorem entriesFoldAt_of_unique (opts : ConfigOptions) (k : String)
    (es : List (String × JSVal)) (init : Option JSVal)
    (hwf : (es.filter (fun q => q.1 = k)).length ≤ 1) :
    entriesFoldAt opts k es init =
      (match objLookup es k with
       | some v => if acceptedVal opts v then some v else init
       | none => init) := by
  induction es generalizing init with
  | nil => rfl
  | cons q rest ih =>
      obtain ⟨k₁, v⟩ := q
      by_cases hk : k₁ = k
      · subst hk
        have hempty : ∀ r ∈ rest, r.1 ≠ k₁ := by
          intro r hr hrk
          have hwf2 := hwf
          simp only [List.filter_cons] at hwf2
          rw [if_pos (by simp)] at hwf2
          simp only [List.length_cons] at hwf2
          have : r ∈ rest.filter (fun q => q.1 = k₁) :=
            List.mem_filter.mpr ⟨hr, by simp [hrk]⟩
          have hlen : 1 ≤ (rest.filter (fun q => q.1 = k₁)).length :=
            List.length_pos.mpr (List.ne_nil_of_mem this)
          omega
        simp only [entriesFoldAt, List.foldl_cons, if_pos rfl, objLookup, if_pos rfl]
        exact entriesFoldAt_of_absent opts k₁ rest _ hempty
      · simp only [entriesFoldAt, List.foldl_cons, if_neg hk, objLookup, if_neg hk]
        refine Eq.trans (ih init ?_) rfl
        simp only [List.filter_cons] at hwf
        by_cases hq : (k₁ = k)
        · exact absurd hq hk
        · simpa [hq] using hwf

theorem lastAcceptedFrom_append (opts : ConfigOptions) (k : String)
    (l : List (LayerName × JSVal)) (p : LayerName × JSVal) (init : Option JSVal) :
    lastAcceptedFrom opts k (l ++ [p]) init =
      entriesFoldAt opts k (forInEntries p.2) (lastAcceptedFrom opts k l init) := by
  simp [lastAcceptedFrom, List.foldl_append]

theorem keyWF_append (k : String) (l : List (LayerName × JSVal)) (p : LayerName × JSVal)
    (h : keyWF k (l ++ [p]) = true) :
    keyWF k l = true ∧ ((forInEntries p.2).filter (fun q => q.1 = k)).length ≤ 1 := by
  simp only [keyWF, List.all_append, Bool.and_eq_true, List.all_cons, List.all_nil,
    Bool.and_true] at h
  refine ⟨h.1, by simpa using h.2⟩

theorem lastAccepted_eq_firstDesc (opts : ConfigOptions) (k : String)
    (l : List (LayerName × JSVal)) (hwf : keyWF k l = true) :
    lastAcceptedAt opts k l = firstAcceptedDesc opts k l.reverse := by
  induction l using List.reverseRecOn with
  | nil => rfl
  | append_singleton l p ih =>
      obtain ⟨hwl, hwp⟩ := keyWF_append k l p hwf
      rw [lastAcceptedAt, lastAcceptedFrom_append, List.reverse_append]
      simp only [List.reverse_singleton, List.singleton_append]
      rw [entriesFoldAt_of_unique opts k _ _ hwp]
      rw [firstAcceptedDesc]
      cases hv : objLookup (forInEntries p.2) k with
      | none => exact ih hwl
      | some v =>
          change (if acceptedVal opts v = true then some v else lastAcceptedAt opts k l) =
            (if acceptedVal opts v = true then some v else firstAcceptedDesc opts k l.reverse)
          by_cases hacc : acceptedVal opts v = true
          · rw [if_pos hacc, if_pos hacc]
          · rw [if_neg hacc, if_neg hacc]
            exact ih hwl

theorem isOkE_exists {α : Type} (x : Except JSErr α) (h : isOkE x = true) :
    ∃ a, x = .ok a := by
  cases x with
  | ok a => exact ⟨a, rfl⟩
  | error e => cases h

theorem getComplexLoop_cons_falsy (opts : ConfigOptions) (parts : List String)
    (n : LayerName) (layer : JSVal) (rest : List (LayerName × JSVal))
    (resObj : List (String × JSVal)) (htr : truthy layer = false) :
    getComplexLoop opts parts ((n, layer) :: rest) resObj =
      getComplexLoop opts parts rest resObj := by
  rw [getComplexLoop, if_pos htr]

theorem getComplexLoop_cons_none (opts : ConfigOptions) (parts : List String)
    (n : LayerName) (layer : JSVal) (rest : List (LayerName × JSVal))
    (resObj : List (String × JSVal)) (htr : ¬truthy layer = false)
    (hw : walkParts layer parts = .ok none) :
    getComplexLoop opts parts ((n, layer) :: rest) resObj =
      getComplexLoop opts parts rest resObj := by
  rw [getComplexLoop, if_neg htr, hw]

theorem getComplexLoop_cons_some (opts : ConfigOptions) (parts : List String)
    (n : LayerName) (layer : JSVal) (rest : List (LayerName × JSVal))
    (resObj : List (String × JSVal)) (cur : JSVal) (htr : ¬truthy layer = false)
    (hw : walkParts layer parts = .ok (some cur)) :
    getComplexLoop opts parts ((n, layer) :: rest) resObj =
      (if cur = .vnull ∧ opts.acceptNull = false then
        getComplexLoop opts parts rest resObj
      else if cur = .vundef ∧ opts.acceptUndefined = false then
        getComplexLoop opts parts rest resObj
      else if isFinalValue cur = true then .ok (some cur, resObj)
      else getComplexLoop opts parts rest (spreadInto resObj cur)) := by
  rw [getComplexLoop, if_neg htr, hw]

theorem layerFinalAt_falsy (opts : ConfigOptions) (parts : List String)
    (layer : JSVal) (htr : truthy layer = false) :
    layerFinalAt opts parts layer = none := by
  rw [layerFinalAt, if_pos htr]

theorem layerFinalAt_walk_none (opts : ConfigOptions) (parts : List String)
    (layer : JSVal) (htr : ¬truthy layer = false)
    (hw : walkParts layer parts = .ok none) :
    layerFinalAt opts parts layer = none := by
  rw [layerFinalAt, if_neg htr, hw]

theorem layerFinalAt_walk_some (opts : ConfigOptions) (parts : List String)
    (layer : JSVal) (cur : JSVal) (htr : ¬truthy layer = false)
    (hw : walkParts layer parts = .ok (some cur)) :
    layerFinalAt opts parts layer =
      (if (acceptedVal opts cur && isFinalValue cur) = true then some cur else none) := by
  rw [layerFinalAt, if_neg htr, hw]

theorem firstFinalAccepted_cons_none (opts : ConfigOptions) (parts : List String)
    (p : LayerName × JSVal) (rest : List (LayerName × JSVal))
    (h : layerFinalAt opts parts p.2 = none) :
    firstFinalAccepted opts parts (p :: rest) = firstFinalAccepted opts parts rest := by
  rw [firstFinalAccepted, h]

theorem firstFinalAccepted_cons_some (opts : ConfigOptions) (parts : List String)
    (p : LayerName × JSVal) (rest : List (LayerName × JSVal)) (cur : JSVal)
    (h : layerFinalAt opts parts p.2 = some cur) :
    firstFinalAccepted opts parts (p :: rest) = some cur := by
  rw [firstFinalAccepted, h]

theorem getComplexLoop_firstFinal (opts : ConfigOptions) (parts : List String) :
    ∀ (l : List (LayerName × JSVal)) (resObj : List (String × JSVal)) (v : JSVal),
    (∀ p ∈ l, isOkE (walkParts p.2 parts) = true) →
    firstFinalAccepted opts parts l = some v →
    ∃ r, getComplexLoop opts parts l resObj = .ok (some v, r) := by
  intro l
  induction l with
  | nil => intro resObj v _ hff; cases hff
  | cons p rest ih =>
      intro resObj v hwalk hff
      obtain ⟨n, layer⟩ := p
      by_cases htr : truthy layer = false
      · rw [firstFinalAccepted_cons_none opts parts (n, layer) rest
          (show layerFinalAt opts parts (n, layer).2 = none from
            layerFinalAt_falsy opts parts layer htr)] at hff
        rw [getComplexLoop_cons_falsy opts parts n layer rest resObj htr]
        exact ih resObj v (fun q hq => hwalk q (by simp [hq])) hff
      · obtain ⟨cur?, hw⟩ := isOkE_exists _ (hwalk (n, layer) (by simp))
        cases cur? with
        | none =>
            rw [firstFinalAccepted_cons_none opts parts (n, layer) rest
              (show layerFinalAt opts parts (n, layer).2 = none from
                layerFinalAt_walk_none opts parts layer htr hw)] at hff
            rw [getComplexLoop_cons_none opts parts n layer rest resObj htr hw]
            exact ih resObj v (fun q hq => hwalk q (by simp [hq])) hff
        | some cur =>
            rw [getComplexLoop_cons_some opts parts n layer rest resObj cur htr hw]
            by_cases hacc : acceptedVal opts cur = true
            · have hs1 : ¬(cur = JSVal.vnull ∧ opts.acceptNull = false) := by
                rintro ⟨h1, h2⟩
                rw [h1, acceptedVal_vnull, h2] at hacc
                cases hacc
              have hs2 : ¬(cur = JSVal.vundef ∧ opts.acceptUndefined = false) := by
                rintro ⟨h1, h2⟩
                rw [h1, acceptedVal_vundef, h2] at hacc
                cases hacc
              rw [if_neg hs1, if_neg hs2]
              by_cases hfin : isFinalValue cur = true
              · rw [firstFinalAccepted_cons_some opts parts (n, layer) rest cur
                  (by show layerFinalAt opts parts layer = some cur
                      rw [layerFinalAt_walk_some opts parts layer cur htr hw,
                        if_pos (by rw [hacc, hfin]; rfl)])] at hff
                obtain rfl : cur = v := by injection hff
                rw [if_pos hfin]
                exact ⟨resObj, rfl⟩
              · rw [firstFinalAccepted_cons_none opts parts (n, layer) rest
                  (by show layerFinalAt opts parts layer = none
                      rw [layerFinalAt_walk_some opts parts layer cur htr hw,
                        if_neg (by simp [hfin])])] at hff
                rw [if_neg hfin]
                exact ih (spreadInto resObj cur) v
                  (fun q hq => hwalk q (by simp [hq])) hff
            · rw [firstFinalAccepted_cons_none opts parts (n, layer) rest
                (by show layerFinalAt opts parts layer = none
                    rw [layerFinalAt_walk_some opts parts layer cur htr hw,
                      if_neg (by simp [hacc])])] at hff
              rcases acceptedVal_false_cases opts cur (by simpa using hacc) with hc | hc
              · rw [if_pos hc]
                exact ih resObj v (fun q hq => hwalk q (by simp [hq])) hff
              · rw [if_neg (fun h => by rw [h.1] at hc; exact absurd hc.1 (by simp)),
                  if_pos hc]
                exact ih resObj v (fun q hq => hwalk q (by simp [hq])) hff

theorem getComplexLoop_all_skip (opts : ConfigOptions) (parts : List String) :
    ∀ (l : List (LayerName × JSVal)) (resObj : List (String × JSVal)),
    (∀ p ∈ l, walkParts p.2 parts = .ok none ∨
      ∃ v, walkParts p.2 parts = .ok (some v) ∧ acceptedVal opts v = false) →
    getComplexLoop opts parts l resObj = .ok (none, resObj) := by
  intro l
  induction l with
  | nil => intro resObj _; rfl
  | cons p rest ih =>
      intro resObj hall
      obtain ⟨n, layer⟩ := p
      by_cases htr : truthy layer = false
      · rw [getComplexLoop_cons_falsy opts parts n layer rest resObj htr]
        exact ih resObj (fun q hq => hall q (by simp [hq]))
      · rcases hall (n, layer) (by simp) with hw | ⟨v, hw, hacc⟩
        · rw [getComplexLoop_cons_none opts parts n layer rest resObj htr hw]
          exact ih resObj (fun q hq => hall q (by simp [hq]))
        · rw [getComplexLoop_cons_some opts parts n layer rest resObj v htr hw]
          rcases acceptedVal_false_cases opts v hacc with hc | hc
          · rw [if_pos hc]
            exact ih resObj (fun q hq => hall q (by simp [hq]))
          · rw [if_neg (fun h => by rw [h.1] at hc; exact absurd hc.1 (by simp)),
              if_pos hc]
            exact ih resObj (fun q hq => hall q (by simp [hq]))

theorem inspectFlatLoop_cons_eq (opts : ConfigOptions) (key : String) (n : LayerName)
    (layer : JSVal) (rest : List (LayerName × JSVal)) (found present₀ : Bool)
    (hp : (if truthy layer then jsHasProp layer key else Except.ok false) = Except.ok present₀) :
    inspectFlatLoop opts key ((n, layer) :: rest) found =
      (match inspectFlatLoop opts key rest
          (found || ((inspectFlatStep opts key layer present₀).1 && !found)) with
       | .error e => .error e
       | .ok er =>
           .ok (⟨n,
               if (inspectFlatStep opts key layer present₀).1 then
                 (inspectFlatStep opts key layer present₀).2
               else .vundef,
               (inspectFlatStep opts key layer present₀).1,
               (inspectFlatStep opts key layer present₀).1 && !found⟩ :: er.1,
             if (inspectFlatStep opts key layer present₀).1 && !found then
               some ((inspectFlatStep opts key layer present₀).2, n)
             else er.2)) := by
  rw [inspectFlatLoop, hp]

theorem inspectFlatLoop_count (opts : ConfigOptions) (key : String) :
    ∀ (l : List (LayerName × JSVal)) (found : Bool) (entries : List LayerEntry)
      (res : Option (JSVal × LayerName)),
    inspectFlatLoop opts key l found = .ok (entries, res) →
    entries.countP (fun e => e.isActive) ≤ (if found then 0 else 1) := by
  intro l
  induction l with
  | nil =>
      intro found entries res h
      simp only [inspectFlatLoop] at h
      obtain ⟨he, -⟩ := Prod.mk.injEq .. ▸ Except.ok.injEq .. ▸ h
      rw [← he]
      simp
  | cons p rest ih =>
      intro found entries res h
      obtain ⟨n, layer⟩ := p
      cases hp : (if truthy layer then jsHasProp layer key else Except.ok false) with
      | error e =>
          rw [inspectFlatLoop, hp] at h
          exact absurd h (by simp)
      | ok present₀ =>
          rw [inspectFlatLoop_cons_eq opts key n layer rest found present₀ hp] at h
          cases hrec : inspectFlatLoop opts key rest
              (found || ((inspectFlatStep opts key layer present₀).1 && !found)) with
          | error e => rw [hrec] at h; exact absurd h (by simp)
          | ok er =>
              rw [hrec] at h
              obtain ⟨he, -⟩ := Prod.mk.injEq .. ▸ Except.ok.injEq .. ▸ h
              rw [← he]
              rw [List.countP_cons]
              cases found with
              | true =>
                  have hc := ih _ _ _ hrec
                  simp at hc ⊢
                  first
                  | exact hc
                  | omega
              | false =>
                  cases ha : (inspectFlatStep opts key layer present₀).1 with
                  | true =>
                      have hc := ih _ _ _ hrec
                      rw [ha] at hc
                      simp at hc ⊢
                      first
                      | exact hc
                      | omega
                  | false =>
                      have hc := ih _ _ _ hrec
                      rw [ha] at hc
                      simp at hc ⊢
                      first
                      | exact hc
                      | omega

theorem inspectDeepLoop_cons_falsy (opts : ConfigOptions) (parts : List String)
    (n : LayerName) (frag : JSVal) (rest : List (LayerName × JSVal)) (rv : JSVal)
    (rs : LayerName) (htr : truthy frag = false) :
    inspectDeepLoop opts parts ((n, frag) :: rest) rv rs =
      inspectDeepLoop opts parts rest rv rs := by
  rw [inspectDeepLoop, if_pos htr]

theorem inspectDeepLoop_cons_eq (opts : ConfigOptions) (parts : List String)
    (n : LayerName) (frag : JSVal) (rest : List (LayerName × JSVal)) (rv : JSVal)
    (rs : LayerName) (htr : ¬truthy frag = false) :
    inspectDeepLoop opts parts ((n, frag) :: rest) rv rs =
      (⟨n, (inspectDeepStep opts parts frag).2, (inspectDeepStep opts parts frag).1,
          (inspectDeepStep opts parts frag).1 && (rv = JSVal.vundef)⟩ ::
        (inspectDeepLoop opts parts rest
          (if (inspectDeepStep opts parts frag).1 && (rv = JSVal.vundef) then
            (inspectDeepStep opts parts frag).2
          else rv)
          (if (inspectDeepStep opts parts frag).1 && (rv = JSVal.vundef) then n
          else rs)).1,
        (inspectDeepLoop opts parts rest
          (if (inspectDeepStep opts parts frag).1 && (rv = JSVal.vundef) then
            (inspectDeepStep opts parts frag).2
          else rv)
          (if (inspectDeepStep opts parts frag).1 && (rv = JSVal.vundef) then n
          else rs)).2) := by
  rw [inspectDeepLoop, if_neg htr]

theorem inspectDeepLoop_count (opts : ConfigOptions) (parts : List String)
    (hU : opts.acceptUndefined = false) :
    ∀ (l : List (LayerName × JSVal)) (rv : JSVal) (rs : LayerName),
    (inspectDeepLoop opts parts l rv rs).1.countP (fun e => e.isActive) ≤
      (if rv = .vundef then 1 else 0) := by
  intro l
  induction l with
  | nil =>
      intro rv rs
      simp [inspectDeepLoop]
  | cons p rest ih =>
      intro rv rs
      obtain ⟨n, frag⟩ := p
      by_cases htr : truthy frag = false
      · rw [inspectDeepLoop_cons_falsy opts parts n frag rest rv rs htr]
        exact ih rv rs
      · rw [inspectDeepLoop_cons_eq opts parts n frag rest rv rs htr]
        simp only [List.countP_cons]
        cases hact : (inspectDeepStep opts parts frag).1 && decide (rv = JSVal.vundef) with
        | false =>
            have hrest := ih rv rs
            simp at hrest ⊢
            first
            | exact hrest
            | omega
        | true =>
            have hfound : (inspectDeepStep opts parts frag).1 = true :=
              ((Bool.and_eq_true _ _) ▸ hact).1
            have hrv : rv = JSVal.vundef :=
              of_decide_eq_true ((Bool.and_eq_true _ _) ▸ hact).2
            have hcur : (inspectDeepStep opts parts frag).2 ≠ JSVal.vundef := by
              intro hu
              have hfound2 : ((walkTyped frag parts).isSome &&
                  acceptedVal opts ((walkTyped frag parts).getD .vundef)) = true := hfound
              have hacc := ((Bool.and_eq_true _ _) ▸ hfound2).2
              rw [inspectDeepStep] at hu
              simp only [hfound2, if_pos] at hu
              rw [hu, acceptedVal_vundef, hU] at hacc
              cases hacc
            have hrest := ih (inspectDeepStep opts parts frag).2 n
            rw [if_neg hcur] at hrest
            rw [if_pos hrv]
            simp at hrest ⊢
            first
            | exact hrest
            | omega

/-! The claim theorems. -/

/-- Claim C8: the key path parser maps each of the test-vector inputs to
exactly the segment list the specification gives, and it is total: it
never fails and always produces at least one segment. -/
theorem splitDotExceptDouble_vectors_and_total :
    splitDotExceptDouble "a.b.c" = ["a", "b", "c"] ∧
    splitDotExceptDouble "special..name" = ["special.name"] ∧
    splitDotExceptDouble "a..b.c" = ["a.b", "c"] ∧
    splitDotExceptDouble "a...b.c" = ["a..b", "c"] ∧
    splitDotExceptDouble "" = [""] ∧
    splitDotExceptDouble ".a.b" = ["", "a", "b"] ∧
    splitDotExceptDouble "a.b." = ["a", "b", ""] ∧
    splitDotExceptDouble ".." = ["."] ∧
    ∀ s : String, splitDotExceptDouble s ≠ [] :=
  ⟨by decide, by decide, by decide, by decide, by decide, by decide, by decide,
    by decide, splitDotExceptDouble_ne_nil⟩

/-- Claim C1, counterexample: with two layers both holding plain objects
at the single-segment key "a", resolution returns the deep merge of both
objects, which contains the lower layer's field x and therefore is not
the value of the highest-precedence layer in which the key is present. -/
theorem flat_object_values_merge_counterexample :
    (do
      let p ← fromLayers
        [(.str "lo", .vobj false [("a", .vobj false [("x", .vnum 1)])]),
         (.str "hi", .vobj false [("a", .vobj false [("y", .vnum 2)])])] defaultOptions
      __getFlat p.1 "a" .vundef false) =
      .ok (.vobj true [("x", .vnum 1), ("y", .vnum 2)]) ∧
    objLookup (forInEntries (.vobj false [("a", .vobj false [("y", .vnum 2)])])) "a" =
      some (.vobj false [("y", .vnum 2)]) ∧
    JSVal.vobj true [("x", .vnum 1), ("y", .vnum 2)] ≠ .vobj false [("y", .vnum 2)] := by
  refine ⟨by decide, by decide, by decide⟩

/-- Claim C1 (amended): for a single-segment key all of whose layer values
are non-object scalars, resolution through the flattened snapshot returns
exactly the value of the highest-precedence layer in which the key is
present and passes the acceptance policy; no lower-precedence layer
overrides it. -/
theorem flat_resolution_returns_highest_accepted
    (layers : List (LayerName × JSVal)) (opts : ConfigOptions)
    (inst : Instance) (w : List ArrWrite) (k : String) (v : JSVal)
    (hok : fromLayers layers opts = .ok (inst, w))
    (hsc : scalarsAtKey k (mapFromList layers) = true)
    (hwf : keyWF k (mapFromList layers) = true)
    (hv : firstAcceptedDesc opts k (mapFromList layers).reverse = some v) :
    __getFlat inst k .vundef false = .ok v := by
  obtain ⟨fr, fields, hfl, hlk⟩ := fromLayers_flat_lookup layers opts inst w k hok hsc
  have hla : lastAcceptedAt opts k (mapFromList layers) = some v := by
    rw [lastAccepted_eq_firstDesc opts k _ hwf, hv]
  rw [hla] at hlk
  have hops := fromLayers_options layers opts inst w hok
  have hQ := lastAcceptedFrom_inv opts k (mapFromList layers) none
    (scalarsAtKey_spec k _ hsc) (by intro x hx; cases hx) v hla
  refine __getFlat_of_some inst k .vundef false fr fields v hfl hlk ?_
  rintro ⟨h1, h2⟩
  rw [hops] at h2
  have := hQ.2
  rw [h1, acceptedVal_vundef, h2] at this
  cases this

/-- Witness for the amended claim C1 at a concrete two-layer store. -/
theorem flat_resolution_returns_highest_accepted_witness :
    __getFlat
      { layers := [(.str "lo", .vobj false [("a", .vnum 1)]),
          (.str "hi", .vobj false [("a", .vnum 2)])]
        options := defaultOptions
        flattened := .vobj true [("a", .vnum 2)] } "a" .vundef false = .ok (.vnum 2) :=
  flat_resolution_returns_highest_accepted
    [(.str "lo", .vobj false [("a", .vnum 1)]), (.str "hi", .vobj false [("a", .vnum 2)])]
    defaultOptions _ [] "a" (.vnum 2) rfl (by decide) (by decide) (by decide)

/-- The wrapper equation of __getComplex over its layer scan. -/
theorem __getComplex_eq (inst : Instance) (key : String) (fb : JSVal) (si : Bool) :
    __getComplex inst key fb si =
      (match getComplexLoop inst.options (splitDotExceptDouble key)
          inst.layers.reverse [] with
       | .error e => .error e
       | .ok (some cur, _) => .ok cur
       | .ok (none, resObj) =>
           if resObj ≠ [] then .ok (.vobj false resObj)
           else if fb ≠ .vundef then .ok fb
           else if si then .ok .vundef
           else .error (.notFound ("Key not found: " ++ key))) := rfl

/-- Claim C2, counterexample: the lower layer fully contains the path
"a.b" with the accepted scalar 7, but resolution raises a TypeError
instead of returning that scalar, because the higher layer holds the
truthy primitive 5 at the proper prefix "a" and the in operator is
applied to it. -/
theorem nested_scalar_typeerror_counterexample :
    (do
      let p ← fromLayers
        [(.str "lo", .vobj false [("a", .vobj false [("b", .vnum 7)])]),
         (.str "hi", .vobj false [("a", .vnum 5)])] defaultOptions
      __getComplex p.1 "a.b" .vundef false) =
      .error (.typeError "Cannot use in operator to search for b") ∧
    walkParts (.vobj false [("a", .vobj false [("b", .vnum 7)])])
      (splitDotExceptDouble "a.b") = .ok (some (.vnum 7)) ∧
    acceptedVal defaultOptions (.vnum 7) = true ∧
    isFinalValue (.vnum 7) = true := by
  refine ⟨by decide, by decide, by decide, by decide⟩

/-- Claim C2 (amended): provided no layer's walk of the path raises a
TypeError (no truthy primitive sits at a proper prefix of the path in any
layer), if some layer fully contains the path with an accepted final
(non-object, non-array) value, nested resolution returns the value of the
highest-precedence such layer, shadowing the whole subtree at that path
in every other layer. -/
theorem nested_scalar_shadows_subtree (inst : Instance) (key : String)
    (fb : JSVal) (si : Bool) (v : JSVal)
    (hwalk : ∀ p ∈ inst.layers, isOkE (walkParts p.2 (splitDotExceptDouble key)) = true)
    (hff : firstFinalAccepted inst.options (splitDotExceptDouble key)
      inst.layers.reverse = some v) :
    __getComplex inst key fb si = .ok v := by
  obtain ⟨r, hr⟩ := getComplexLoop_firstFinal inst.options (splitDotExceptDouble key)
    inst.layers.reverse [] v (fun p hp => hwalk p (List.mem_reverse.mp hp)) hff
  rw [__getComplex_eq, hr]

/-- Witness for the amended claim C2: the higher layer's scalar 2 at the
path "a.b" shadows the lower layer's whole subtree there. -/
theorem nested_scalar_shadows_subtree_witness :
    __getComplex
      { layers := [(.str "lo",
          .vobj false [("a", .vobj false [("b", .vobj false [("x", .vnum 1)])])]),
          (.str "hi", .vobj false [("a", .vobj false [("b", .vnum 2)])])]
        options := defaultOptions
        flattened := .vobj true [("a", .vobj true [("b", .vnum 2)])] }
      "a.b" .vundef false = .ok (.vnum 2) :=
  nested_scalar_shadows_subtree
    { layers := [(.str "lo",
        .vobj false [("a", .vobj false [("b", .vobj false [("x", .vnum 1)])])]),
        (.str "hi", .vobj false [("a", .vobj false [("b", .vnum 2)])])]
      options := defaultOptions
      flattened := .vobj true [("a", .vobj true [("b", .vnum 2)])] }
    "a.b" .vundef false (.vnum 2) (by decide) (by decide)

/-- Claim C6: when resolution of a key yields no value from any layer, a
supplied (non-undefined) fallback is returned; without a fallback the
default not-found handler raises a descriptive error naming the missing
key.  Stated for both the flat and the nested resolution paths. -/
theorem notfound_fallback_and_default_handler (inst : Instance) (k key : String)
    (fb : JSVal) :
    (∀ fr fields, inst.flattened = .vobj fr fields →
      (objLookup fields k = none ∨
        (objLookup fields k = some .vundef ∧ inst.options.acceptUndefined = false)) →
      (fb ≠ .vundef → __getFlat inst k fb false = .ok fb) ∧
      __getFlat inst k .vundef false = .error (.notFound ("Key not found: " ++ k))) ∧
    ((∀ p ∈ inst.layers, walkParts p.2 (splitDotExceptDouble key) = .ok none ∨
        ∃ v, walkParts p.2 (splitDotExceptDouble key) = .ok (some v) ∧
          acceptedVal inst.options v = false) →
      (fb ≠ .vundef → __getComplex inst key fb false = .ok fb) ∧
      __getComplex inst key .vundef false =
        .error (.notFound ("Key not found: " ++ key))) := by
  constructor
  · intro fr fields hfl habs
    constructor
    · intro hfb
      rw [__getFlat_notfound inst k fb false fr fields hfl habs, if_pos hfb]
    · rw [__getFlat_notfound inst k .vundef false fr fields hfl habs]
      rw [if_neg (by simp), if_neg (by simp)]
  · intro hall
    have hloop := getComplexLoop_all_skip inst.options (splitDotExceptDouble key)
      inst.layers.reverse []
      (fun p hp => hall p (List.mem_reverse.mp hp))
    constructor
    · intro hfb
      rw [__getComplex_eq, hloop]
      show (if ([] : List (String × JSVal)) ≠ [] then Except.ok (JSVal.vobj false [])
        else if fb ≠ JSVal.vundef then Except.ok fb
        else if false = true then Except.ok JSVal.vundef
        else Except.error (JSErr.notFound ("Key not found: " ++ key))) = Except.ok fb
      rw [if_neg (by simp), if_pos hfb]
    · rw [__getComplex_eq, hloop]
      show (if ([] : List (String × JSVal)) ≠ [] then Except.ok (JSVal.vobj false [])
        else if JSVal.vundef ≠ JSVal.vundef then Except.ok JSVal.vundef
        else if false = true then Except.ok JSVal.vundef
        else Except.error (JSErr.notFound ("Key not found: " ++ key))) =
        Except.error (JSErr.notFound ("Key not found: " ++ key))
      rw [if_neg (by simp), if_neg (by simp), if_neg (by simp)]

/-- Witness for claim C6 at a concrete store: the fallback is returned
when supplied, and the default handler error names the key otherwise. -/
theorem notfound_fallback_and_default_handler_witness :
    (__getFlat
      { layers := [(.str "base", .vobj false [("foo", .vstr "base")])]
        options := defaultOptions
        flattened := .vobj true [("foo", .vstr "base")] } "nope" (.vstr "fb") false =
      .ok (.vstr "fb")) ∧
    (__getFlat
      { layers := [(.str "base", .vobj false [("foo", .vstr "base")])]
        options := defaultOptions
        flattened := .vobj true [("foo", .vstr "base")] } "nope" .vundef false =
      .error (.notFound "Key not found: nope")) ∧
    (__getComplex
      { layers := [(.str "base", .vobj false [("foo", .vstr "base")])]
        options := defaultOptions
        flattened := .vobj true [("foo", .vstr "base")] } "no.pe" (.vstr "fb") false =
      .ok (.vstr "fb")) ∧
    (__getComplex
      { layers := [(.str "base", .vobj false [("foo", .vstr "base")])]
        options := defaultOptions
        flattened := .vobj true [("foo", .vstr "base")] } "no.pe" .vundef false =
      .error (.notFound "Key not found: no.pe")) := by
  have h := notfound_fallback_and_default_handler
    { layers := [(.str "base", .vobj false [("foo", .vstr "base")])]
      options := defaultOptions
      flattened := .vobj true [("foo", .vstr "base")] } "nope" "no.pe" (.vstr "fb")
  obtain ⟨hflat, hdeep⟩ := h
  have h1 := hflat true [("foo", .vstr "base")] rfl (by decide)
  have h2 := hdeep (by
    intro p hp
    have hp2 : p = (LayerName.str "base", JSVal.vobj false [("foo", JSVal.vstr "base")]) := by
      simpa using hp
    subst hp2
    left
    decide)
  exact ⟨h1.1 (by decide), h1.2, h2.1 (by decide), h2.2⟩

/-- The wrapper equation of __inspect over its two branch loops. -/
theorem __inspect_eq (inst : Instance) (key : String) :
    __inspect inst key =
      (if (splitDotExceptDouble key).length < 1 then
        .ok { key := key, resolvedValue := .vundef, resolvedSource := .str ""
              layers := inst.layers.reverse.map (fun p => ⟨p.1, .vundef, false, false⟩) }
      else if (splitDotExceptDouble key).length = 1 then
        match inspectFlatLoop inst.options key inst.layers.reverse false with
        | .error e => .error e
        | .ok er =>
            .ok { key := key
                  resolvedValue := (er.2.map Prod.fst).getD .vundef
                  resolvedSource := (er.2.map Prod.snd).getD (.str "")
                  layers := er.1 }
      else
        .ok { key := key
              resolvedValue := (inspectDeepLoop inst.options (splitDotExceptDouble key)
                inst.layers.reverse .vundef (.str "")).2.1
              resolvedSource := (inspectDeepLoop inst.options (splitDotExceptDouble key)
                inst.layers.reverse .vundef (.str "")).2.2
              layers := (inspectDeepLoop inst.options (splitDotExceptDouble key)
                inst.layers.reverse .vundef (.str "")).1 }) := by
  rw [__inspect]
  rcases hsp : splitDotExceptDouble key with _ | ⟨k₁, rest⟩
  · rfl
  · cases inspectFlatLoop inst.options key inst.layers.reverse false with
    | error e => cases rest <;> rfl
    | ok er => cases rest <;> rfl

/-- Claim C4, counterexample: with acceptUndefined enabled and two layers
both holding an explicit undefined at the nested path a.b, the inspection
result marks both layers active. -/
theorem inspect_two_active_counterexample :
    (do
      let p ← fromLayers
        [(.str "lo", .vobj false [("a", .vobj false [("b", .vundef)])]),
         (.str "hi", .vobj false [("a", .vobj false [("b", .vundef)])])]
        { acceptNull := false, acceptUndefined := true, freeze := true }
      let r ← __inspect p.1 "a.b"
      pure (countActive r)) = .ok 2 := by decide

/-- Claim C4 (amended): with acceptUndefined disabled (the default), an
inspection result marks at most one layer active, for every store,
remaining option, and key; with acceptUndefined enabled the bound can
fail for multi-segment keys whose resolved value is undefined. -/
theorem inspect_at_most_one_active (inst : Instance) (key : String)
    (r : InspectionResult) (hU : inst.options.acceptUndefined = false)
    (hok : __inspect inst key = .ok r) : countActive r ≤ 1 := by
  rw [__inspect_eq] at hok
  by_cases h1 : (splitDotExceptDouble key).length < 1
  · rw [if_pos h1] at hok
    obtain rfl : _ = r := by injection hok
    simp only [countActive, List.countP_map]
    exact le_trans
      (le_of_eq (List.countP_eq_zero.mpr (fun a ha => by simp [Function.comp])))
      (by omega)
  · rw [if_neg h1] at hok
    by_cases h2 : (splitDotExceptDouble key).length = 1
    · rw [if_pos h2] at hok
      cases hloop : inspectFlatLoop inst.options key inst.layers.reverse false with
      | error e => rw [hloop] at hok; exact absurd hok (by simp)
      | ok er =>
          rw [hloop] at hok
          obtain rfl : _ = r := by injection hok
          have := inspectFlatLoop_count inst.options key inst.layers.reverse false
            er.1 er.2 (by rw [hloop])
          simpa [countActive] using this
    · rw [if_neg h2] at hok
      obtain rfl : _ = r := by injection hok
      have := inspectDeepLoop_count inst.options (splitDotExceptDouble key) hU
        inst.layers.reverse .vundef (.str "")
      simpa [countActive] using this

/-- Witness for the amended claim C4 at a concrete store and key. -/
theorem inspect_at_most_one_active_witness :
    ∃ r, __inspect
      { layers := [(.str "l", .vobj false [("a", .vnum 1)])]
        options := defaultOptions
        flattened := .vobj true [("a", .vnum 1)] } "a" = .ok r ∧ countActive r ≤ 1 := by
  refine ⟨{ key := "a", resolvedValue := .vnum 1, resolvedSource := .str "l"
            layers := [⟨.str "l", .vnum 1, true, true⟩] }, by decide, ?_⟩
  exact inspect_at_most_one_active
    { layers := [(.str "l", .vobj false [("a", .vnum 1)])]
      options := defaultOptions
      flattened := .vobj true [("a", .vnum 1)] } "a" _ rfl (by decide)

theorem deepMergeEntry_shape (opts : ConfigOptions) (fr : Bool)
    (fields : List (String × JSVal)) (k₁ : String) (v : JSVal) (t₁ : JSVal)
    (w₁ : List ArrWrite)
    (hok : deepMergeEntry opts (.vobj fr fields) k₁ v = .ok (t₁, w₁)) :
    ∃ fields₁, t₁ = .vobj fr fields₁ := by
  obtain ⟨fields₁, ht, -⟩ := deepMergeEntry_lookup opts (k₁ ++ "x") fr fields k₁ v t₁ w₁
    hok (fun h => by
      have h2 := congrArg String.length h
      rw [String.length_append] at h2
      have h3 : "x".length = 1 := rfl
      omega)
  exact ⟨fields₁, ht⟩

theorem deepMergeList_shape (opts : ConfigOptions) :
    ∀ (es : List (String × JSVal)) (fr : Bool) (fields : List (String × JSVal))
      (t' : JSVal) (w : List ArrWrite),
    deepMergeList opts (.vobj fr fields) es = .ok (t', w) →
    ∃ fields', t' = .vobj fr fields' := by
  intro es
  induction es with
  | nil =>
      intro fr fields t' w hok
      simp only [deepMergeList] at hok
      obtain ⟨ht, -⟩ := Prod.mk.injEq .. ▸ Except.ok.injEq .. ▸ hok
      exact ⟨fields, ht.symm⟩
  | cons e rest ih =>
      intro fr fields t' w hok
      obtain ⟨k₁, v⟩ := e
      simp only [deepMergeList] at hok
      cases hentry : deepMergeEntry opts (.vobj fr fields) k₁ v with
      | error er => rw [hentry] at hok; exact absurd hok (by simp)
      | ok p₁ =>
          obtain ⟨t₁, w₁⟩ := p₁
          rw [hentry] at hok
          have hok2 : (match deepMergeList opts t₁ rest with
              | Except.error e => Except.error e
              | Except.ok (t₂, w₂) => Except.ok (t₂, w₁ ++ w₂)) = Except.ok (t', w) := hok
          cases hlist : deepMergeList opts t₁ rest with
          | error er => rw [hlist] at hok2; exact absurd hok2 (by simp)
          | ok p₂ =>
              obtain ⟨t₂, w₂⟩ := p₂
              rw [hlist] at hok2
              obtain ⟨ht, -⟩ := Prod.mk.injEq .. ▸ Except.ok.injEq .. ▸ hok2
              obtain ⟨fields₁, ht₁⟩ :=
                deepMergeEntry_shape opts fr fields k₁ v t₁ w₁ hentry
              subst ht₁
              obtain ⟨fields', ht₂⟩ := ih fr fields₁ t₂ w₂ hlist
              exact ⟨fields', by rw [← ht]; exact ht₂⟩

theorem flattenLayers_shape (opts : ConfigOptions) :
    ∀ (layers : List (LayerName × JSVal)) (fr : Bool) (fields : List (String × JSVal))
      (flat : JSVal) (w : List ArrWrite),
    flattenLayers opts (.vobj fr fields) layers = .ok (flat, w) →
    ∃ fields', flat = .vobj fr fields' := by
  intro layers
  induction layers with
  | nil =>
      intro fr fields flat w hok
      simp only [flattenLayers] at hok
      obtain ⟨ht, -⟩ := Prod.mk.injEq .. ▸ Except.ok.injEq .. ▸ hok
      exact ⟨fields, ht.symm⟩
  | cons p rest ih =>
      intro fr fields flat w hok
      obtain ⟨n, frag⟩ := p
      simp only [flattenLayers] at hok
      cases hmerge : deepMerge opts (.vobj fr fields) frag with
      | error er => rw [hmerge] at hok; exact absurd hok (by simp)
      | ok p₁ =>
          obtain ⟨t₁, w₁⟩ := p₁
          rw [hmerge] at hok
          have hok2 : (match flattenLayers opts t₁ rest with
              | Except.error e => Except.error e
              | Except.ok (t₂, w₂) => Except.ok (t₂, w₁ ++ w₂)) = Except.ok (flat, w) := hok
          cases hrest : flattenLayers opts t₁ rest with
          | error er => rw [hrest] at hok2; exact absurd hok2 (by simp)
          | ok p₂ =>
              obtain ⟨t₂, w₂⟩ := p₂
              rw [hrest] at hok2
              obtain ⟨ht, -⟩ := Prod.mk.injEq .. ▸ Except.ok.injEq .. ▸ hok2
              obtain ⟨fields₁, ht₁⟩ :=
                deepMergeList_shape opts (forInEntries frag) fr fields t₁ w₁ hmerge
              subst ht₁
              obtain ⟨fields', ht₂⟩ := ih fr fields₁ t₂ w₂ hrest
              exact ⟨fields', by rw [← ht]; exact ht₂⟩

theorem fromLayers_flattened_vobj (layers : List (LayerName × JSVal))
    (opts : ConfigOptions) (inst : Instance) (w : List ArrWrite)
    (hok : fromLayers layers opts = .ok (inst, w)) :
    ∃ fr fields, inst.flattened = .vobj fr fields := by
  rw [fromLayers] at hok
  cases hfl : flattenLayers opts (.vobj false []) (mapFromList layers) with
  | error e => rw [hfl] at hok; exact absurd hok (by simp)
  | ok p =>
      obtain ⟨flat, w₀⟩ := p
      rw [hfl] at hok
      obtain ⟨ht, -⟩ := Prod.mk.injEq .. ▸ Except.ok.injEq .. ▸ hok
      obtain ⟨fields₀, hsh⟩ := flattenLayers_shape opts (mapFromList layers) false []
        flat w₀ hfl
      subst hsh
      by_cases hfz : opts.freeze = true
      · rw [if_pos hfz] at ht
        exact ⟨true, deepFreezeFields fields₀, by rw [← ht]; rfl⟩
      · rw [if_neg hfz] at ht
        exact ⟨false, fields₀, by rw [← ht]⟩

theorem lastAcceptedFrom_absent (opts : ConfigOptions) (k : String) :
    ∀ (ls : List (LayerName × JSVal)) (init : Option JSVal),
    (∀ p ∈ ls, ∀ q ∈ forInEntries p.2, q.1 ≠ k) →
    lastAcceptedFrom opts k ls init = init := by
  intro ls
  induction ls with
  | nil => intro init _; rfl
  | cons p rest ih =>
      intro init h
      simp only [lastAcceptedFrom, List.foldl_cons]
      rw [entriesFoldAt_of_absent opts k _ init (fun q hq => h p (by simp) q hq)]
      exact ih init (fun r hr q hq => h r (by simp [hr]) q hq)

/-- Claim C9: the reserved awaitable probe name "then" resolves to
undefined without invoking the not-found handler when no layer declares
it; a layer that does declare it gets normal resolution. -/
theorem await_probe_then (layers : List (LayerName × JSVal)) (opts : ConfigOptions)
    (inst : Instance) (w : List ArrWrite)
    (hok : fromLayers layers opts = .ok (inst, w)) :
    ((∀ p ∈ mapFromList layers, ∀ q ∈ forInEntries p.2, q.1 ≠ "then") →
      proxyGet inst "then" = .value (.ok .vundef)) ∧
    (∀ v, jsGetProp inst.flattened "then" = v → v ≠ .vundef →
      proxyGet inst "then" = .value (__getFlat inst "then" .vundef false) ∧
      __getFlat inst "then" .vundef false = .ok v) := by
  constructor
  · intro habs
    have hsc : scalarsAtKey "then" (mapFromList layers) = true := by
      apply List.all_eq_true.mpr
      intro p hp
      apply List.all_eq_true.mpr
      intro q hq
      simp [habs p hp q hq]
    obtain ⟨fr, fields, hfl, hlk⟩ :=
      fromLayers_flat_lookup layers opts inst w "then" hok hsc
    rw [lastAcceptedAt, lastAcceptedFrom_absent opts "then" _ none habs] at hlk
    have hgp : jsGetProp inst.flattened "then" = .vundef := by
      rw [hfl]
      simp [jsGetProp, hlk]
    rw [proxyGet, if_neg (by decide), if_pos ⟨rfl, hgp⟩]
  · intro v hv hne
    obtain ⟨fr, fields, hfl⟩ := fromLayers_flattened_vobj layers opts inst w hok
    have hlk : objLookup fields "then" = some v := by
      rw [hfl] at hv
      simp only [jsGetProp] at hv
      cases hl : objLookup fields "then" with
      | none => rw [hl] at hv; exact absurd hv.symm hne
      | some v' => rw [hl] at hv; rw [← hv]; rfl
    constructor
    · rw [proxyGet, if_neg (by decide),
        if_neg (fun hc => hne (by rw [← hv]; exact hc.2)),
        show splitDotExceptDouble "then" = ["then"] from by decide]
    · exact __getFlat_of_some inst "then" .vundef false fr fields v hfl hlk
        (fun hc => hne hc.1)

/-- Witness for claim C9: a view without the key awaits as undefined, a
view declaring it resolves it normally. -/
theorem await_probe_then_witness :
    (proxyGet
      { layers := [(.str "base", .vobj false [("foo", .vstr "base")])]
        options := defaultOptions
        flattened := .vobj true [("foo", .vstr "base")] } "then" =
      .value (.ok .vundef)) ∧
    (proxyGet
      { layers := [(.str "d", .vobj false [("then", .vstr "value")])]
        options := defaultOptions
        flattened := .vobj true [("then", .vstr "value")] } "then" =
      .value (__getFlat
        { layers := [(.str "d", .vobj false [("then", .vstr "value")])]
          options := defaultOptions
          flattened := .vobj true [("then", .vstr "value")] } "then" .vundef false)) ∧
    (__getFlat
      { layers := [(.str "d", .vobj false [("then", .vstr "value")])]
        options := defaultOptions
        flattened := .vobj true [("then", .vstr "value")] } "then" .vundef false =
      .ok (.vstr "value")) := by
  have h1 := (await_probe_then [(.str "base", .vobj false [("foo", .vstr "base")])]
    defaultOptions _ [] rfl).1 (by
      intro p hp q hq
      have hp3 : p ∈ [(LayerName.str "base",
        JSVal.vobj false [("foo", JSVal.vstr "base")])] := hp
      have hp2 : p = (LayerName.str "base",
          JSVal.vobj false [("foo", JSVal.vstr "base")]) := by
        simpa using hp3
      subst hp2
      have hq3 : q ∈ [("foo", JSVal.vstr "base")] := hq
      have hq2 : q = ("foo", JSVal.vstr "base") := by simpa using hq3
      subst hq2
      decide)
  have h2 := (await_probe_then [(.str "d", .vobj false [("then", .vstr "value")])]
    defaultOptions _ [] rfl).2 (.vstr "value") (by decide) (by decide)
  exact ⟨h1, h2.1, h2.2⟩

theorem storeSet_mem (m : List (LayerName × JSVal)) (k : LayerName) (v : JSVal) :
    ∀ p ∈ storeSet m k v, p = (k, v) ∨ p ∈ m := by
  induction m with
  | nil => intro p hp; simp only [storeSet] at hp; simp at hp; simp [hp]
  | cons q rest ih =>
      intro p hp
      simp only [storeSet] at hp
      by_cases hk : q.1 = k
      · rw [if_pos hk] at hp
        rcases List.mem_cons.mp hp with h | h
        · exact Or.inl h
        · exact Or.inr (by simp [h])
      · rw [if_neg hk] at hp
        rcases List.mem_cons.mp hp with h | h
        · exact Or.inr (by simp [h])
        · rcases ih p h with h2 | h2
          · exact Or.inl h2
          · exact Or.inr (by simp [h2])

theorem foldl_storeSet_names (P : LayerName → Prop) :
    ∀ (l : List (LayerName × JSVal)) (acc : List (LayerName × JSVal)),
    (∀ p ∈ acc, P p.1) → (∀ p ∈ l, P p.1) →
    ∀ p ∈ l.foldl (fun m q => storeSet m q.1 q.2) acc, P p.1 := by
  intro l
  induction l with
  | nil => intro acc hacc _ p hp; exact hacc p hp
  | cons q rest ih =>
      intro acc hacc hl p hp
      refine ih (storeSet acc q.1 q.2) ?_ (fun r hr => hl r (by simp [hr])) p hp
      intro r hr
      rcases storeSet_mem acc q.1 q.2 r hr with h | h
      · rw [h]; exact hl q (by simp)
      · exact hacc r h

theorem storeGet_none_of_all (m : List (LayerName × JSVal)) (k : LayerName)
    (h : ∀ p ∈ m, p.1 ≠ k) : storeGet m k = none := by
  induction m with
  | nil => rfl
  | cons q rest ih =>
      simp only [storeGet]
      rw [if_neg (h q (by simp))]
      exact ih (fun r hr => h r (by simp [hr]))

/-- Claim C10: every derivation rebuilds the store through a plain
string-keyed record and Object.entries, so the derived store holds only
string-named layers: every symbol-named layer of the original store is
dropped. -/
theorem derive_drops_symbol_layers (inst : Instance) (args : DeriveArgs)
    (inst' : Instance) (w : List ArrWrite)
    (hok : __derive inst args = .ok (inst', w)) :
    (∀ p ∈ inst'.layers, ∃ s, p.1 = LayerName.str s) ∧
    ∀ sid, storeGet inst'.layers (.sym sid) = none := by
  have hform : ∃ (entries : List (String × JSVal)) (opts2 : ConfigOptions),
      fromLayers (entries.map (fun q => (LayerName.str q.1, q.2))) opts2 =
        .ok (inst', w) := by
    cases args with
    | optsOnly p => exact ⟨_, _, hok⟩
    | layerOnly name frag => exact ⟨_, _, hok⟩
    | layerAndOpts name frag p => exact ⟨_, _, hok⟩
  obtain ⟨entries, opts2, hok2⟩ := hform
  have hstr : ∀ p ∈ mapFromList (entries.map (fun q => (LayerName.str q.1, q.2))),
      ∃ s, p.1 = LayerName.str s := by
    intro p hp
    refine foldl_storeSet_names (fun n => ∃ s, n = LayerName.str s) _ []
      (by intro r hr; cases hr) ?_ p hp
    intro r hr
    obtain ⟨q, -, hq⟩ := List.mem_map.mp hr
    exact ⟨q.1, by rw [← hq]⟩
  have hnames : ∀ p ∈ inst'.layers, ∃ s, p.1 = LayerName.str s := by
    rw [fromLayers] at hok2
    cases hfl : flattenLayers opts2 (.vobj false [])
        (mapFromList (entries.map (fun q => (LayerName.str q.1, q.2)))) with
    | error e => rw [hfl] at hok2; exact absurd hok2 (by simp)
    | ok pr =>
        rw [hfl] at hok2
        obtain ⟨ht, -⟩ := Prod.mk.injEq .. ▸ Except.ok.injEq .. ▸ hok2
        rw [← ht]
        by_cases hfz : opts2.freeze = true
        · rw [if_pos hfz]
          intro p hp
          obtain ⟨q, hq, hqe⟩ := List.mem_map.mp hp
          obtain ⟨s, hs⟩ := hstr q hq
          exact ⟨s, by rw [← hqe, ← hs]⟩
        · rw [if_neg hfz]
          exact hstr
  refine ⟨hnames, fun sid => storeGet_none_of_all _ _ ?_⟩
  intro p hp hc
  obtain ⟨s, hs⟩ := hnames p hp
  rw [hs] at hc
  cases hc

/-- Witness for claim C10: deriving over a store holding a symbol-named
layer yields a store with only the string-named layers. -/
theorem derive_drops_symbol_layers_witness :
    ∃ inst' w, __derive
      { layers := [(.str "a", .vobj false [("x", .vnum 1)]),
          (.sym 7, .vobj false [("y", .vnum 2)])]
        options := defaultOptions
        flattened := .vobj true [("x", .vnum 1), ("y", .vnum 2)] }
      (.optsOnly {}) = .ok (inst', w) ∧
    storeGet inst'.layers (.sym 7) = none := by
  refine ⟨{ layers := [(.str "a", .vobj false [("x", .vnum 1)])]
            options := defaultOptions
            flattened := .vobj true [("x", .vnum 1)] }, [], by decide, ?_⟩
  exact (derive_drops_symbol_layers
    { layers := [(.str "a", .vobj false [("x", .vnum 1)]),
        (.sym 7, .vobj false [("y", .vnum 2)])]
      options := defaultOptions
      flattened := .vobj true [("x", .vnum 1), ("y", .vnum 2)] }
    (.optsOnly {}) _ [] (by decide)).2 7

theorem entriesFoldAt_not_accepted (opts : ConfigOptions) (k : String) :
    ∀ (es : List (String × JSVal)) (init : Option JSVal),
    (∀ q ∈ es, q.1 = k → acceptedVal opts q.2 = false) →
    entriesFoldAt opts k es init = init := by
  intro es
  induction es with
  | nil => intro init _; rfl
  | cons q rest ih =>
      intro init h
      simp only [entriesFoldAt, List.foldl_cons]
      by_cases hk : q.1 = k
      · rw [if_pos hk, if_neg (by simp [h q (by simp) hk])]
        exact ih init (fun r hr hc => h r (by simp [hr]) hc)
      · rw [if_neg hk]
        exact ih init (fun r hr hc => h r (by simp [hr]) hc)

theorem entriesFoldAt_stable (opts : ConfigOptions) (k : String) (x : JSVal)
    (hx : acceptedVal opts x = true) :
    ∀ (es : List (String × JSVal)),
    (∀ q ∈ es, q.1 = k → q.2 = x) →
    entriesFoldAt opts k es (some x) = some x := by
  intro es
  induction es with
  | nil => intro _; rfl
  | cons q rest ih =>
      intro h
      simp only [entriesFoldAt, List.foldl_cons]
      by_cases hk : q.1 = k
      · rw [if_pos hk, h q (by simp) hk, if_pos hx]
        exact ih (fun r hr hc => h r (by simp [hr]) hc)
      · rw [if_neg hk]
        exact ih (fun r hr hc => h r (by simp [hr]) hc)

theorem entriesFoldAt_const (opts : ConfigOptions) (k : String) (x : JSVal)
    (hx : acceptedVal opts x = true) :
    ∀ (es : List (String × JSVal)) (init : Option JSVal),
    (∀ q ∈ es, q.1 = k → q.2 = x) →
    (objLookup es k).isSome = true →
    entriesFoldAt opts k es init = some x := by
  intro es
  induction es with
  | nil => intro init _ hsome; cases hsome
  | cons q rest ih =>
      intro init h hsome
      simp only [entriesFoldAt, List.foldl_cons]
      by_cases hk : q.1 = k
      · rw [if_pos hk, h q (by simp) hk, if_pos hx]
        exact entriesFoldAt_stable opts k x hx rest
          (fun r hr hc => h r (by simp [hr]) hc)
      · rw [if_neg hk]
        refine ih init (fun r hr hc => h r (by simp [hr]) hc) ?_
        obtain ⟨k₁, v⟩ := q
        simp only [objLookup, if_neg (by simpa using hk)] at hsome
        exact hsome

theorem __getFlat_congr (instA instB : Instance) (k : String) (fb : JSVal) (si : Bool)
    (frA frB : Bool) (fieldsA fieldsB : List (String × JSVal))
    (hA : instA.flattened = .vobj frA fieldsA)
    (hB : instB.flattened = .vobj frB fieldsB)
    (hopts : instA.options = instB.options)
    (hlk : objLookup fieldsA k = objLookup fieldsB k) :
    __getFlat instA k fb si = __getFlat instB k fb si := by
  rw [__getFlat, __getFlat, hA, hB]
  simp only [jsGetProp, jsHasPropB, jsHasProp, hlk, hopts]

theorem inspectFlatLoop_objects_ok (opts : ConfigOptions) (key : String) :
    ∀ (l : List (LayerName × JSVal)) (found : Bool),
    (∀ p ∈ l, isMergeableObj p.2 = true) →
    ∃ er, inspectFlatLoop opts key l found = .ok er := by
  intro l
  induction l with
  | nil => intro found _; exact ⟨([], none), rfl⟩
  | cons p rest ih =>
      intro found hobj
      obtain ⟨n, layer⟩ := p
      have hm := hobj (n, layer) (by simp)
      cases layer with
      | vobj lfr lfields =>
          rw [inspectFlatLoop_cons_eq opts key n (.vobj lfr lfields) rest found
            ((objLookup lfields key).isSome) rfl]
          obtain ⟨er, her⟩ := ih _ (fun q hq => hobj q (by simp [hq]))
          rw [her]
          exact ⟨_, rfl⟩
      | vnull => cases hm
      | vundef => cases hm
      | vbool b => cases hm
      | vnum nn => cases hm
      | vstr s => cases hm
      | varr i f e pr => cases hm

/-- Claim C5: null and undefined transparency, for flat and nested
resolution.  Part (a): with the default policy an explicit null or
undefined at the key in the extra top layer is invisible to flat
resolution, which agrees with the store lacking that layer.  Parts (b),
(c): with acceptNull (acceptUndefined) enabled, the top layer's null
(undefined) becomes the flat resolved value and inspection reports that
layer as present and active.  Part (d): in nested resolution, a top layer
whose walk at the key path reaches an explicit null or undefined is
skipped under the default policy, and resolution agrees with the store
lacking that layer, for every key.  Parts (e), (f): with acceptNull
(acceptUndefined) enabled, the top layer's walked null (undefined) is a
final accepted value and becomes the nested resolved value. -/
theorem null_undefined_transparency
    (layersA layersB rest : List (LayerName × JSVal)) (hiName : LayerName)
    (hiFields : List (String × JSVal)) (k : String) :
    (∀ (optsD : ConfigOptions) (instA instB : Instance) (wA wB : List ArrWrite)
        (fb : JSVal) (si : Bool),
      optsD.acceptNull = false → optsD.acceptUndefined = false →
      fromLayers layersA optsD = .ok (instA, wA) →
      fromLayers layersB optsD = .ok (instB, wB) →
      mapFromList layersA = rest ++ [(hiName, .vobj false hiFields)] →
      mapFromList layersB = rest →
      (∀ q ∈ hiFields, q.1 = k → (q.2 = .vnull ∨ q.2 = .vundef)) →
      scalarsAtKey k (mapFromList layersA) = true →
      scalarsAtKey k (mapFromList layersB) = true →
      __getFlat instA k fb si = __getFlat instB k fb si) ∧
    (∀ (opts : ConfigOptions) (instA : Instance) (wA : List ArrWrite),
      opts.acceptNull = true →
      fromLayers layersA opts = .ok (instA, wA) →
      mapFromList layersA = rest ++ [(hiName, .vobj false hiFields)] →
      objLookup hiFields k = some .vnull →
      (∀ q ∈ hiFields, q.1 = k → q.2 = .vnull) →
      scalarsAtKey k (mapFromList layersA) = true →
      (∀ p ∈ mapFromList layersA, isMergeableObj p.2 = true) →
      (∀ p ∈ mapFromList layersA, noArraysIn p.2 = true) →
      splitDotExceptDouble k = [k] →
      __getFlat instA k .vundef false = .ok .vnull ∧
      ∃ entriesRest,
        __inspect instA k = .ok {
          key := k,
          resolvedValue := .vnull,
          resolvedSource := hiName,
          layers := ⟨hiName, .vnull, true, true⟩ :: entriesRest }) ∧
    (∀ (opts : ConfigOptions) (instA : Instance) (wA : List ArrWrite),
      opts.acceptUndefined = true →
      fromLayers layersA opts = .ok (instA, wA) →
      mapFromList layersA = rest ++ [(hiName, .vobj false hiFields)] →
      objLookup hiFields k = some .vundef →
      (∀ q ∈ hiFields, q.1 = k → q.2 = .vundef) →
      scalarsAtKey k (mapFromList layersA) = true →
      (∀ p ∈ mapFromList layersA, isMergeableObj p.2 = true) →
      (∀ p ∈ mapFromList layersA, noArraysIn p.2 = true) →
      splitDotExceptDouble k = [k] →
      __getFlat instA k .vundef false = .ok .vundef ∧
      ∃ entriesRest,
        __inspect instA k = .ok {
          key := k,
          resolvedValue := .vundef,
          resolvedSource := hiName,
          layers := ⟨hiName, .vundef, true, true⟩ :: entriesRest }) ∧
    (∀ (opts : ConfigOptions) (instA instB : Instance)
        (store : List (LayerName × JSVal)) (hiLayer : JSVal)
        (key : String) (fb : JSVal) (si : Bool) (v : JSVal),
      opts.acceptNull = false → opts.acceptUndefined = false →
      instA.options = opts → instB.options = opts →
      instA.layers = store ++ [(hiName, hiLayer)] →
      instB.layers = store →
      walkParts hiLayer (splitDotExceptDouble key) = .ok (some v) →
      (v = .vnull ∨ v = .vundef) →
      __getComplex instA key fb si = __getComplex instB key fb si) ∧
    (∀ (opts : ConfigOptions) (instA : Instance)
        (store : List (LayerName × JSVal)) (hiLayer : JSVal)
        (key : String) (fb : JSVal) (si : Bool),
      opts.acceptNull = true →
      instA.options = opts →
      instA.layers = store ++ [(hiName, hiLayer)] →
      truthy hiLayer = true →
      walkParts hiLayer (splitDotExceptDouble key) = .ok (some .vnull) →
      __getComplex instA key fb si = .ok .vnull) ∧
    (∀ (opts : ConfigOptions) (instA : Instance)
        (store : List (LayerName × JSVal)) (hiLayer : JSVal)
        (key : String) (fb : JSVal) (si : Bool),
      opts.acceptUndefined = true →
      instA.options = opts →
      instA.layers = store ++ [(hiName, hiLayer)] →
      truthy hiLayer = true →
      walkParts hiLayer (splitDotExceptDouble key) = .ok (some .vundef) →
      __getComplex instA key fb si = .ok .vundef) := by
  refine ⟨?_, ?_, ?_, ?_, ?_, ?_⟩
  · intro optsD instA instB wA wB fb si hN hU hokA hokB hmapA hmapB hq hscA hscB
    obtain ⟨frA, fieldsA, hflA, hlkA⟩ :=
      fromLayers_flat_lookup layersA optsD instA wA k hokA hscA
    obtain ⟨frB, fieldsB, hflB, hlkB⟩ :=
      fromLayers_flat_lookup layersB optsD instB wB k hokB hscB
    have heq : lastAcceptedAt optsD k (mapFromList layersA) =
        lastAcceptedAt optsD k (mapFromList layersB) := by
      rw [hmapA, hmapB]
      simp only [lastAcceptedAt]
      rw [lastAcceptedFrom_append]
      have : forInEntries (JSVal.vobj false hiFields) = hiFields := rfl
      rw [this]
      rw [entriesFoldAt_not_accepted optsD k hiFields _ ?_]
      intro q hqm hqk
      rcases hq q hqm hqk with h | h
      · rw [h, acceptedVal_vnull, hN]
      · rw [h, acceptedVal_vundef, hU]
    rw [heq] at hlkA
    exact __getFlat_congr instA instB k fb si frA frB fieldsA fieldsB hflA hflB
      (by rw [fromLayers_options layersA optsD instA wA hokA,
        fromLayers_options layersB optsD instB wB hokB])
      (by rw [hlkA, hlkB])
  · intro opts instA wA hN hokA hmapA hsome hall hsc hobj hna hsplit
    have haccn : acceptedVal opts .vnull = true := by rw [acceptedVal_vnull, hN]
    have hlayers : instA.layers = mapFromList layersA :=
      fromLayers_layers layersA opts instA wA hokA hna
    have hopts : instA.options = opts := fromLayers_options layersA opts instA wA hokA
    have hgf : __getFlat instA k .vundef false = .ok .vnull := by
      obtain ⟨fr, fields, hfl, hlk⟩ :=
        fromLayers_flat_lookup layersA opts instA wA k hokA hsc
      rw [hmapA] at hlk
      simp only [lastAcceptedAt] at hlk
      rw [lastAcceptedFrom_append] at hlk
      rw [show forInEntries (JSVal.vobj false hiFields) = hiFields from rfl] at hlk
      rw [entriesFoldAt_const opts k .vnull haccn hiFields _ hall
        (by rw [hsome]; rfl)] at hlk
      exact __getFlat_of_some instA k .vundef false fr fields .vnull hfl hlk
        (by rintro ⟨h1, -⟩; cases h1)
    refine ⟨hgf, ?_⟩
    rw [__inspect_eq, hsplit]
    rw [if_neg (by simp), if_pos (by simp)]
    rw [hlayers, hmapA, List.reverse_append]
    simp only [List.reverse_cons, List.reverse_nil, List.nil_append,
      List.singleton_append]
    have hpres : (objLookup hiFields k).isSome = true := by rw [hsome]; rfl
    rw [inspectFlatLoop_cons_eq instA.options k hiName (.vobj false hiFields)
      rest.reverse false ((objLookup hiFields k).isSome) rfl]
    have hstep2 : (inspectFlatStep instA.options k (.vobj false hiFields)
        ((objLookup hiFields k).isSome)).2 = .vnull := by
      rw [inspectFlatStep]
      simp only [hpres, if_true]
      simp only [jsGetProp, hsome]
      rfl
    have hstep1 : (inspectFlatStep instA.options k (.vobj false hiFields)
        ((objLookup hiFields k).isSome)).1 = true := by
      rw [inspectFlatStep]
      simp only [hpres, if_true]
      simp only [jsGetProp, hsome]
      rw [show (some JSVal.vnull).getD JSVal.vundef = JSVal.vnull from rfl]
      rw [hopts, haccn]
      rfl
    obtain ⟨er, her⟩ := inspectFlatLoop_objects_ok instA.options k rest.reverse
      (false || ((inspectFlatStep instA.options k (.vobj false hiFields)
        ((objLookup hiFields k).isSome)).1 && !false))
      (fun p hp => hobj p (by
        rw [hmapA]
        exact List.mem_append.mpr (Or.inl (List.mem_reverse.mp hp))))
    rw [her]
    refine ⟨er.1, ?_⟩
    rw [hstep1, hstep2]
    rfl
  · intro opts instA wA hU hokA hmapA hsome hall hsc hobj hna hsplit
    have haccu : acceptedVal opts .vundef = true := by rw [acceptedVal_vundef, hU]
    have hlayers : instA.layers = mapFromList layersA :=
      fromLayers_layers layersA opts instA wA hokA hna
    have hopts : instA.options = opts := fromLayers_options layersA opts instA wA hokA
    have hgf : __getFlat instA k .vundef false = .ok .vundef := by
      obtain ⟨fr, fields, hfl, hlk⟩ :=
        fromLayers_flat_lookup layersA opts instA wA k hokA hsc
      rw [hmapA] at hlk
      simp only [lastAcceptedAt] at hlk
      rw [lastAcceptedFrom_append] at hlk
      rw [show forInEntries (JSVal.vobj false hiFields) = hiFields from rfl] at hlk
      rw [entriesFoldAt_const opts k .vundef haccu hiFields _ hall
        (by rw [hsome]; rfl)] at hlk
      exact __getFlat_of_some instA k .vundef false fr fields .vundef hfl hlk
        (by rintro ⟨-, h2⟩; rw [hopts, hU] at h2; cases h2)
    refine ⟨hgf, ?_⟩
    rw [__inspect_eq, hsplit]
    rw [if_neg (by simp), if_pos (by simp)]
    rw [hlayers, hmapA, List.reverse_append]
    simp only [List.reverse_cons, List.reverse_nil, List.nil_append,
      List.singleton_append]
    have hpres : (objLookup hiFields k).isSome = true := by rw [hsome]; rfl
    rw [inspectFlatLoop_cons_eq instA.options k hiName (.vobj false hiFields)
      rest.reverse false ((objLookup hiFields k).isSome) rfl]
    have hstep2 : (inspectFlatStep instA.options k (.vobj false hiFields)
        ((objLookup hiFields k).isSome)).2 = .vundef := by
      rw [inspectFlatStep]
      simp only [hpres, if_true]
      simp only [jsGetProp, hsome]
      rfl
    have hstep1 : (inspectFlatStep instA.options k (.vobj false hiFields)
        ((objLookup hiFields k).isSome)).1 = true := by
      rw [inspectFlatStep]
      simp only [hpres, if_true]
      simp only [jsGetProp, hsome]
      rw [show (some JSVal.vundef).getD JSVal.vundef = JSVal.vundef from rfl]
      rw [hopts, haccu]
      rfl
    obtain ⟨er, her⟩ := inspectFlatLoop_objects_ok instA.options k rest.reverse
      (false || ((inspectFlatStep instA.options k (.vobj false hiFields)
        ((objLookup hiFields k).isSome)).1 && !false))
      (fun p hp => hobj p (by
        rw [hmapA]
        exact List.mem_append.mpr (Or.inl (List.mem_reverse.mp hp))))
    rw [her]
    refine ⟨er.1, ?_⟩
    rw [hstep1, hstep2]
    rfl
  · intro opts instA instB store hiLayer key fb si v hN hU hoA hoB hlA hlB hw hv
    rw [__getComplex_eq, __getComplex_eq, hoA, hoB, hlA, hlB, List.reverse_append]
    simp only [List.reverse_cons, List.reverse_nil, List.nil_append,
      List.singleton_append]
    have hloop : getComplexLoop opts (splitDotExceptDouble key)
        ((hiName, hiLayer) :: store.reverse) [] =
        getComplexLoop opts (splitDotExceptDouble key) store.reverse [] := by
      by_cases htr : truthy hiLayer = false
      · exact getComplexLoop_cons_falsy opts (splitDotExceptDouble key) hiName
          hiLayer store.reverse [] htr
      · rw [getComplexLoop_cons_some opts (splitDotExceptDouble key) hiName
          hiLayer store.reverse [] v htr hw]
        rcases hv with h | h
        · subst h
          rw [if_pos ⟨rfl, hN⟩]
        · subst h
          rw [if_neg (by rintro ⟨h1, -⟩; cases h1), if_pos ⟨rfl, hU⟩]
    rw [hloop]
  · intro opts instA store hiLayer key fb si hN hoA hlA htr hw
    rw [__getComplex_eq, hoA, hlA, List.reverse_append]
    simp only [List.reverse_cons, List.reverse_nil, List.nil_append,
      List.singleton_append]
    rw [getComplexLoop_cons_some opts (splitDotExceptDouble key) hiName
      hiLayer store.reverse [] .vnull (by rw [htr]; simp) hw]
    rw [if_neg (by rintro ⟨-, h2⟩; rw [hN] at h2; cases h2),
      if_neg (by rintro ⟨h1, -⟩; cases h1)]
    rfl
  · intro opts instA store hiLayer key fb si hU hoA hlA htr hw
    rw [__getComplex_eq, hoA, hlA, List.reverse_append]
    simp only [List.reverse_cons, List.reverse_nil, List.nil_append,
      List.singleton_append]
    rw [getComplexLoop_cons_some opts (splitDotExceptDouble key) hiName
      hiLayer store.reverse [] .vundef (by rw [htr]; simp) hw]
    rw [if_neg (by rintro ⟨h1, -⟩; cases h1),
      if_neg (by rintro ⟨-, h2⟩; rw [hU] at h2; cases h2)]
    rfl


theorem null_undefined_transparency_witness :
    __getFlat
      { layers := [(.str "base", .vobj false [("foo", .vstr "fb")]),
          (.str "hi", .vobj false [("foo", .vnull)])]
        options := defaultOptions
        flattened := .vobj true [("foo", .vstr "fb")] } "foo" .vundef false =
    __getFlat
      { layers := [(.str "base", .vobj false [("foo", .vstr "fb")])]
        options := defaultOptions
        flattened := .vobj true [("foo", .vstr "fb")] } "foo" .vundef false ∧
    (__getFlat
      { layers := [(.str "base", .vobj false [("foo", .vstr "fb")]),
          (.str "hi", .vobj false [("foo", .vnull)])]
        options := { acceptNull := true, acceptUndefined := false, freeze := true }
        flattened := .vobj true [("foo", .vnull)] } "foo" .vundef false = .ok .vnull ∧
     ∃ entriesRest,
       __inspect
         { layers := [(.str "base", .vobj false [("foo", .vstr "fb")]),
             (.str "hi", .vobj false [("foo", .vnull)])]
           options := { acceptNull := true, acceptUndefined := false, freeze := true }
           flattened := .vobj true [("foo", .vnull)] } "foo" = .ok {
         key := "foo",
         resolvedValue := .vnull,
         resolvedSource := .str "hi",
         layers := ⟨.str "hi", .vnull, true, true⟩ :: entriesRest }) ∧
    (__getFlat
      { layers := [(.str "base", .vobj false [("foo", .vstr "fb")]),
          (.str "hi", .vobj false [("foo", .vundef)])]
        options := { acceptNull := false, acceptUndefined := true, freeze := true }
        flattened := .vobj true [("foo", .vundef)] } "foo" .vundef false = .ok .vundef ∧
     ∃ entriesRest,
       __inspect
         { layers := [(.str "base", .vobj false [("foo", .vstr "fb")]),
             (.str "hi", .vobj false [("foo", .vundef)])]
           options := { acceptNull := false, acceptUndefined := true, freeze := true }
           flattened := .vobj true [("foo", .vundef)] } "foo" = .ok {
         key := "foo",
         resolvedValue := .vundef,
         resolvedSource := .str "hi",
         layers := ⟨.str "hi", .vundef, true, true⟩ :: entriesRest }) ∧
    __getComplex
      { layers := [(.str "base", .vobj false [("a", .vobj false [("b", .vstr "fb")])]),
          (.str "hi", .vobj false [("a", .vobj false [("b", .vnull)])])]
        options := defaultOptions
        flattened := .vobj true [("a", .vobj true [("b", .vstr "fb")])] }
      "a.b" .vundef false =
    __getComplex
      { layers := [(.str "base", .vobj false [("a", .vobj false [("b", .vstr "fb")])])]
        options := defaultOptions
        flattened := .vobj true [("a", .vobj true [("b", .vstr "fb")])] }
      "a.b" .vundef false ∧
    __getComplex
      { layers := [(.str "base", .vobj false [("a", .vobj false [("b", .vstr "fb")])]),
          (.str "hi", .vobj false [("a", .vobj false [("b", .vnull)])])]
        options := { acceptNull := true, acceptUndefined := false, freeze := true }
        flattened := .vobj true [("a", .vobj true [("b", .vnull)])] }
      "a.b" .vundef false = .ok .vnull ∧
    __getComplex
      { layers := [(.str "base", .vobj false [("a", .vobj false [("b", .vstr "fb")])]),
          (.str "hi", .vobj false [("a", .vobj false [("b", .vundef)])])]
        options := { acceptNull := false, acceptUndefined := true, freeze := true }
        flattened := .vobj true [("a", .vobj true [("b", .vundef)])] }
      "a.b" .vundef false = .ok .vundef :=
  ⟨(null_undefined_transparency
      [(.str "base", .vobj false [("foo", .vstr "fb")]),
       (.str "hi", .vobj false [("foo", .vnull)])]
      [(.str "base", .vobj false [("foo", .vstr "fb")])]
      [(.str "base", .vobj false [("foo", .vstr "fb")])]
      (.str "hi") [("foo", .vnull)] "foo").1 defaultOptions _ _ [] [] .vundef false
      rfl rfl rfl rfl (by decide) (by decide) (by decide) (by decide) (by decide),
   (null_undefined_transparency
      [(.str "base", .vobj false [("foo", .vstr "fb")]),
       (.str "hi", .vobj false [("foo", .vnull)])]
      [(.str "base", .vobj false [("foo", .vstr "fb")])]
      [(.str "base", .vobj false [("foo", .vstr "fb")])]
      (.str "hi") [("foo", .vnull)] "foo").2.1
      { acceptNull := true, acceptUndefined := false, freeze := true } _ []
      rfl rfl (by decide) (by decide) (by decide) (by decide) (by decide) (by decide)
      (by decide),
   (null_undefined_transparency
      [(.str "base", .vobj false [("foo", .vstr "fb")]),
       (.str "hi", .vobj false [("foo", .vundef)])]
      [(.str "base", .vobj false [("foo", .vstr "fb")])]
      [(.str "base", .vobj false [("foo", .vstr "fb")])]
      (.str "hi") [("foo", .vundef)] "foo").2.2.1
      { acceptNull := false, acceptUndefined := true, freeze := true } _ []
      rfl rfl (by decide) (by decide) (by decide) (by decide) (by decide) (by decide)
      (by decide),
   (null_undefined_transparency
      [(.str "base", .vobj false [("foo", .vstr "fb")]),
       (.str "hi", .vobj false [("foo", .vnull)])]
      [(.str "base", .vobj false [("foo", .vstr "fb")])]
      [(.str "base", .vobj false [("foo", .vstr "fb")])]
      (.str "hi") [("foo", .vnull)] "foo").2.2.2.1 defaultOptions _ _
      [(.str "base", .vobj false [("a", .vobj false [("b", .vstr "fb")])])]
      (.vobj false [("a", .vobj false [("b", .vnull)])]) "a.b" .vundef false .vnull
      rfl rfl rfl rfl rfl rfl (by decide) (Or.inl rfl),
   (null_undefined_transparency
      [(.str "base", .vobj false [("foo", .vstr "fb")]),
       (.str "hi", .vobj false [("foo", .vnull)])]
      [(.str "base", .vobj false [("foo", .vstr "fb")])]
      [(.str "base", .vobj false [("foo", .vstr "fb")])]
      (.str "hi") [("foo", .vnull)] "foo").2.2.2.2.1
      { acceptNull := true, acceptUndefined := false, freeze := true } _
      [(.str "base", .vobj false [("a", .vobj false [("b", .vstr "fb")])])]
      (.vobj false [("a", .vobj false [("b", .vnull)])]) "a.b" .vundef false
      rfl rfl rfl rfl (by decide),
   (null_undefined_transparency
      [(.str "base", .vobj false [("foo", .vstr "fb")]),
       (.str "hi", .vobj false [("foo", .vnull)])]
      [(.str "base", .vobj false [("foo", .vstr "fb")])]
      [(.str "base", .vobj false [("foo", .vstr "fb")])]
      (.str "hi") [("foo", .vnull)] "foo").2.2.2.2.2
      { acceptNull := false, acceptUndefined := true, freeze := true } _
      [(.str "base", .vobj false [("a", .vobj false [("b", .vstr "fb")])])]
      (.vobj false [("a", .vobj false [("b", .vundef)])]) "a.b" .vundef false
      rfl rfl rfl rfl (by decide)⟩


/-! Preservation of the absence of frozen flags through the object
operations and the deep merge, and failure of every write against a deeply
frozen value: the support of the freezing claim. -/

theorem noFrozenFlagsFields_objLookup :
    (f : List (String × JSVal)) → (k : String) → (v : JSVal) →
    noFrozenFlagsFields f = true → objLookup f k = some v → noFrozenFlags v = true
  | [], _, _, _, h => by cases h
  | (k₁, v₁) :: rest, k, v, hf, h => by
      obtain ⟨h1, h2⟩ : noFrozenFlags v₁ = true ∧ noFrozenFlagsFields rest = true := by
        simpa only [noFrozenFlagsFields, Bool.and_eq_true] using hf
      rw [objLookup] at h
      by_cases hk : k₁ = k
      · rw [if_pos hk] at h
        cases h
        exact h1
      · rw [if_neg hk] at h
        exact noFrozenFlagsFields_objLookup rest k v h2 h

theorem noFrozenFlagsElems_get :
    (l : List JSVal) → (i : Nat) → (v : JSVal) →
    noFrozenFlagsElems l = true → l.get? i = some v → noFrozenFlags v = true
  | [], _, _, _, h => by cases h
  | a :: rest, i, v, hl, h => by
      obtain ⟨h1, h2⟩ : noFrozenFlags a = true ∧ noFrozenFlagsElems rest = true := by
        simpa only [noFrozenFlagsElems, Bool.and_eq_true] using hl
      cases i with
      | zero => cases h; exact h1
      | succ j => exact noFrozenFlagsElems_get rest j v h2 h

theorem noFrozenFlags_jsGetProp (t : JSVal) (k : String)
    (ht : noFrozenFlags t = true) : noFrozenFlags (jsGetProp t k) = true := by
  cases t with
  | vobj fr fields =>
      obtain ⟨-, h2⟩ : (!fr) = true ∧ noFrozenFlagsFields fields = true := by
        simpa only [noFrozenFlags, Bool.and_eq_true] using ht
      rw [jsGetProp]
      cases hlk : objLookup fields k with
      | none => rfl
      | some v => exact noFrozenFlagsFields_objLookup fields k v h2 hlk
  | varr i fr elems props =>
      obtain ⟨⟨-, he⟩, hp⟩ :
          ((!fr) = true ∧ noFrozenFlagsElems elems = true) ∧
            noFrozenFlagsFields props = true := by
        simpa only [noFrozenFlags, Bool.and_eq_true] using ht
      rw [jsGetProp]
      by_cases hidx : (isIndexStr k && decide (indexOfStr k < elems.length)) = true
      · rw [if_pos hidx]
        cases hg : elems.get? (indexOfStr k) with
        | none => rfl
        | some v => exact noFrozenFlagsElems_get elems (indexOfStr k) v he hg
      · rw [if_neg (by simpa using hidx)]
        by_cases hlen : k = "length"
        · rw [if_pos hlen]; rfl
        · rw [if_neg hlen]
          cases hlk : objLookup props k with
          | none => rfl
          | some v => exact noFrozenFlagsFields_objLookup props k v hp hlk
  | vnull => rfl
  | vundef => rfl
  | vbool b => rfl
  | vnum n => rfl
  | vstr s => rfl

theorem noFrozenFlagsFields_objSet (f : List (String × JSVal)) (k : String) (v : JSVal)
    (hf : noFrozenFlagsFields f = true) (hv : noFrozenFlags v = true) :
    noFrozenFlagsFields (objSet f k v) = true := by
  induction f with
  | nil => simp [objSet, noFrozenFlagsFields, hv]
  | cons p rest ih =>
      obtain ⟨k₁, v₁⟩ := p
      obtain ⟨h1, h2⟩ : noFrozenFlags v₁ = true ∧ noFrozenFlagsFields rest = true := by
        simpa only [noFrozenFlagsFields, Bool.and_eq_true] using hf
      rw [objSet]
      by_cases hk : k₁ = k
      · rw [if_pos hk]
        simp [noFrozenFlagsFields, hv, h2]
      · rw [if_neg hk]
        simp [noFrozenFlagsFields, h1, ih h2]

theorem noFrozenFlagsElems_append (a b : List JSVal)
    (ha : noFrozenFlagsElems a = true) (hb : noFrozenFlagsElems b = true) :
    noFrozenFlagsElems (a ++ b) = true := by
  induction a with
  | nil => simpa using hb
  | cons v rest ih =>
      obtain ⟨h1, h2⟩ : noFrozenFlags v = true ∧ noFrozenFlagsElems rest = true := by
        simpa only [noFrozenFlagsElems, Bool.and_eq_true] using ha
      simp only [List.cons_append, noFrozenFlagsElems, Bool.and_eq_true]
      exact ⟨h1, ih h2⟩

theorem noFrozenFlagsFields_append (a b : List (String × JSVal))
    (ha : noFrozenFlagsFields a = true) (hb : noFrozenFlagsFields b = true) :
    noFrozenFlagsFields (a ++ b) = true := by
  induction a with
  | nil => simpa using hb
  | cons p rest ih =>
      obtain ⟨k₁, v₁⟩ := p
      obtain ⟨h1, h2⟩ : noFrozenFlags v₁ = true ∧ noFrozenFlagsFields rest = true := by
        simpa only [noFrozenFlagsFields, Bool.and_eq_true] using ha
      simp only [List.cons_append, noFrozenFlagsFields, Bool.and_eq_true]
      exact ⟨h1, ih h2⟩

theorem noFrozenFlagsElems_set (l : List JSVal) (i : Nat) (v : JSVal)
    (hl : noFrozenFlagsElems l = true) (hv : noFrozenFlags v = true) :
    noFrozenFlagsElems (l.set i v) = true := by
  induction l generalizing i with
  | nil => simpa using hl
  | cons a rest ih =>
      obtain ⟨h1, h2⟩ : noFrozenFlags a = true ∧ noFrozenFlagsElems rest = true := by
        simpa only [noFrozenFlagsElems, Bool.and_eq_true] using hl
      cases i with
      | zero => simp only [List.set, noFrozenFlagsElems, Bool.and_eq_true]; exact ⟨hv, h2⟩
      | succ j =>
          simp only [List.set, noFrozenFlagsElems, Bool.and_eq_true]
          exact ⟨h1, ih j h2⟩

theorem noFrozenFlagsElems_replicate_undef (n : Nat) :
    noFrozenFlagsElems (List.replicate n .vundef) = true := by
  induction n with
  | zero => rfl
  | succ m ih =>
      simp only [List.replicate, noFrozenFlagsElems, Bool.and_eq_true]
      exact ⟨rfl, ih⟩

theorem noFrozenFlagsElems_arrSetIdx (l : List JSVal) (i : Nat) (v : JSVal)
    (hl : noFrozenFlagsElems l = true) (hv : noFrozenFlags v = true) :
    noFrozenFlagsElems (arrSetIdx l i v) = true := by
  rw [arrSetIdx]
  by_cases hi : i < l.length
  · rw [if_pos hi]
    exact noFrozenFlagsElems_set l i v hl hv
  · rw [if_neg hi]
    refine noFrozenFlagsElems_append _ _
      (noFrozenFlagsElems_append _ _ hl (noFrozenFlagsElems_replicate_undef _)) ?_
    simp [noFrozenFlagsElems, hv]

theorem noFrozenFlags_jsSetProp (t : JSVal) (k : String) (v : JSVal)
    (t₁ : JSVal) (w₁ : List ArrWrite)
    (ht : noFrozenFlags t = true) (hv : noFrozenFlags v = true)
    (hok : jsSetProp t k v = .ok (t₁, w₁)) : noFrozenFlags t₁ = true := by
  cases t with
  | vobj fr fields =>
      obtain ⟨h1, h2⟩ : (!fr) = true ∧ noFrozenFlagsFields fields = true := by
        simpa only [noFrozenFlags, Bool.and_eq_true] using ht
      rw [jsSetProp] at hok
      rw [if_neg (by simp at h1; simp [h1])] at hok
      obtain ⟨he, -⟩ := Prod.mk.injEq .. ▸ Except.ok.injEq .. ▸ hok
      rw [← he]
      simp only [noFrozenFlags, Bool.and_eq_true]
      exact ⟨h1, noFrozenFlagsFields_objSet fields k v h2 hv⟩
  | varr i fr elems props =>
      obtain ⟨⟨h1, he⟩, hp⟩ :
          ((!fr) = true ∧ noFrozenFlagsElems elems = true) ∧
            noFrozenFlagsFields props = true := by
        simpa only [noFrozenFlags, Bool.and_eq_true] using ht
      rw [jsSetProp] at hok
      rw [if_neg (by simp at h1; simp [h1])] at hok
      by_cases hidx : isIndexStr k = true
      · rw [if_pos hidx] at hok
        obtain ⟨hee, -⟩ := Prod.mk.injEq .. ▸ Except.ok.injEq .. ▸ hok
        rw [← hee]
        simp only [noFrozenFlags, Bool.and_eq_true]
        exact ⟨⟨h1, noFrozenFlagsElems_arrSetIdx elems (indexOfStr k) v he hv⟩, hp⟩
      · rw [if_neg hidx] at hok
        obtain ⟨hee, -⟩ := Prod.mk.injEq .. ▸ Except.ok.injEq .. ▸ hok
        rw [← hee]
        simp only [noFrozenFlags, Bool.and_eq_true]
        exact ⟨⟨h1, he⟩, noFrozenFlagsFields_objSet props k v hp hv⟩
  | vnull => cases hok
  | vundef => cases hok
  | vbool b => cases hok
  | vnum n => cases hok
  | vstr s => cases hok

theorem noFrozenFlags_jsReplaceProp (t : JSVal) (k : String) (v : JSVal)
    (ht : noFrozenFlags t = true) (hv : noFrozenFlags v = true) :
    noFrozenFlags (jsReplaceProp t k v).1 = true := by
  cases t with
  | vobj fr fields =>
      obtain ⟨h1, h2⟩ : (!fr) = true ∧ noFrozenFlagsFields fields = true := by
        simpa only [noFrozenFlags, Bool.and_eq_true] using ht
      simp only [jsReplaceProp, noFrozenFlags, Bool.and_eq_true]
      exact ⟨h1, noFrozenFlagsFields_objSet fields k v h2 hv⟩
  | varr i fr elems props =>
      obtain ⟨⟨h1, he⟩, hp⟩ :
          ((!fr) = true ∧ noFrozenFlagsElems elems = true) ∧
            noFrozenFlagsFields props = true := by
        simpa only [noFrozenFlags, Bool.and_eq_true] using ht
      rw [jsReplaceProp]
      by_cases hidx : isIndexStr k = true
      · rw [if_pos hidx]
        simp only [noFrozenFlags, Bool.and_eq_true]
        exact ⟨⟨h1, noFrozenFlagsElems_arrSetIdx elems (indexOfStr k) v he hv⟩, hp⟩
      · rw [if_neg hidx]
        simp only [noFrozenFlags, Bool.and_eq_true]
        exact ⟨⟨h1, he⟩, noFrozenFlagsFields_objSet props k v hp hv⟩
  | vnull => exact ht
  | vundef => exact ht
  | vbool b => exact ht
  | vnum n => exact ht
  | vstr s => exact ht

theorem deepMergeEntry_vobj_gen_err (opts : ConfigOptions) (t : JSVal) (k₁ : String)
    (vfr : Bool) (vfields : List (String × JSVal)) (e : JSErr)
    (hhp : jsHasProp t k₁ = .error e) :
    deepMergeEntry opts t k₁ (.vobj vfr vfields) = .error e := by
  rw [deepMergeEntry.eq_def]
  rw [if_neg (by simp), if_neg (by simp), hhp]

theorem deepMergeEntry_vobj_gen_has (opts : ConfigOptions) (t : JSVal) (k₁ : String)
    (vfr : Bool) (vfields : List (String × JSVal))
    (hhp : jsHasProp t k₁ = .ok true) :
    deepMergeEntry opts t k₁ (.vobj vfr vfields) =
      (match deepMergeList opts (jsGetProp t k₁) vfields with
       | .error e => .error e
       | .ok (merged, w) =>
           .ok ((jsReplaceProp t k₁ merged).1, w ++ (jsReplaceProp t k₁ merged).2)) := by
  rw [deepMergeEntry.eq_def]
  rw [if_neg (by simp), if_neg (by simp), hhp]
  rfl

theorem deepMergeEntry_vobj_gen_hasnot (opts : ConfigOptions) (t : JSVal) (k₁ : String)
    (vfr : Bool) (vfields : List (String × JSVal))
    (hhp : jsHasProp t k₁ = .ok false) :
    deepMergeEntry opts t k₁ (.vobj vfr vfields) =
      (match jsSetProp t k₁ (.vobj false []) with
       | .error e => .error e
       | .ok (t₁, w₁) =>
         match deepMergeList opts (jsGetProp t₁ k₁) vfields with
         | .error e => .error e
         | .ok (merged, w) =>
             .ok ((jsReplaceProp t₁ k₁ merged).1,
               w₁ ++ w ++ (jsReplaceProp t₁ k₁ merged).2)) := by
  rw [deepMergeEntry.eq_def]
  rw [if_neg (by simp), if_neg (by simp), hhp]
  rfl

theorem deepMergeEntry_scalar_gen (opts : ConfigOptions) (t : JSVal) (k₁ : String)
    (v : JSVal) (hacc : acceptedVal opts v = true) (hmv : isMergeableObj v = false) :
    deepMergeEntry opts t k₁ v =
      (match jsSetProp t k₁ v with
       | .error e => .error e
       | .ok (t₁, w₁) => .ok (t₁, w₁)) := by
  rw [deepMergeEntry.eq_def]
  rw [if_neg (by rintro ⟨h1, h2⟩; subst h1; rw [acceptedVal_vnull, h2] at hacc; cases hacc),
    if_neg (by rintro ⟨h1, h2⟩; subst h1; rw [acceptedVal_vundef, h2] at hacc; cases hacc)]
  cases v with
  | vobj a b => exact absurd hmv (by simp [isMergeableObj])
  | vnull => rfl
  | vundef => rfl
  | vbool b => rfl
  | vnum n => rfl
  | vstr s => rfl
  | varr i f e p => rfl

theorem deepMergeEntry_scalar_noFrozen (opts : ConfigOptions) (t : JSVal) (k₁ : String)
    (v : JSVal) (t₁ : JSVal) (w₁ : List ArrWrite) (hmv : isMergeableObj v = false)
    (ht : noFrozenFlags t = true) (hv : noFrozenFlags v = true)
    (hok : deepMergeEntry opts t k₁ v = .ok (t₁, w₁)) : noFrozenFlags t₁ = true := by
  by_cases hacc : acceptedVal opts v = true
  · rw [deepMergeEntry_scalar_gen opts t k₁ v hacc hmv] at hok
    cases hsp : jsSetProp t k₁ v with
    | error e =>
        rw [hsp] at hok
        cases (show (Except.error e : Except JSErr (JSVal × List ArrWrite)) =
          .ok (t₁, w₁) from hok)
    | ok tw =>
        obtain ⟨t₀, w₀⟩ := tw
        rw [hsp] at hok
        have hok2 : (Except.ok (t₀, w₀) : Except JSErr (JSVal × List ArrWrite)) =
          .ok (t₁, w₁) := hok
        obtain ⟨h1, -⟩ := Prod.mk.injEq .. ▸ Except.ok.injEq .. ▸ hok2
        rw [← h1]
        exact noFrozenFlags_jsSetProp t k₁ v t₀ w₀ ht hv hsp
  · have hacc2 : acceptedVal opts v = false := by
      cases h : acceptedVal opts v
      · rfl
      · exact absurd h hacc
    rw [deepMergeEntry_skip opts t k₁ v hacc2] at hok
    obtain ⟨h1, -⟩ := Prod.mk.injEq .. ▸ Except.ok.injEq .. ▸ hok
    rw [← h1]
    exact ht

mutual

theorem deepMergeEntry_noFrozen (opts : ConfigOptions) (t : JSVal) (k₁ : String) :
    (v : JSVal) → (t₁ : JSVal) → (w₁ : List ArrWrite) →
    noFrozenFlags t = true → noFrozenFlags v = true →
    deepMergeEntry opts t k₁ v = .ok (t₁, w₁) → noFrozenFlags t₁ = true
  | .vnull, t₁, w₁, ht, hv, hok =>
      deepMergeEntry_scalar_noFrozen opts t k₁ .vnull t₁ w₁ rfl ht hv hok
  | .vundef, t₁, w₁, ht, hv, hok =>
      deepMergeEntry_scalar_noFrozen opts t k₁ .vundef t₁ w₁ rfl ht hv hok
  | .vbool b, t₁, w₁, ht, hv, hok =>
      deepMergeEntry_scalar_noFrozen opts t k₁ (.vbool b) t₁ w₁ rfl ht hv hok
  | .vnum n, t₁, w₁, ht, hv, hok =>
      deepMergeEntry_scalar_noFrozen opts t k₁ (.vnum n) t₁ w₁ rfl ht hv hok
  | .vstr s, t₁, w₁, ht, hv, hok =>
      deepMergeEntry_scalar_noFrozen opts t k₁ (.vstr s) t₁ w₁ rfl ht hv hok
  | .varr i f e p, t₁, w₁, ht, hv, hok =>
      deepMergeEntry_scalar_noFrozen opts t k₁ (.varr i f e p) t₁ w₁ rfl ht hv hok
  | .vobj vfr vfields, t₁, w₁, ht, hv, hok => by
      have hvf : noFrozenFlagsFields vfields = true :=
        ((Bool.and_eq_true _ _).mp hv).2
      cases hhp : jsHasProp t k₁ with
      | error e =>
          rw [deepMergeEntry_vobj_gen_err opts t k₁ vfr vfields e hhp] at hok
          cases hok
      | ok has =>
          cases has with
          | true =>
              rw [deepMergeEntry_vobj_gen_has opts t k₁ vfr vfields hhp] at hok
              cases hrec : deepMergeList opts (jsGetProp t k₁) vfields with
              | error e =>
                  rw [hrec] at hok
                  cases (show (Except.error e : Except JSErr (JSVal × List ArrWrite)) =
                    .ok (t₁, w₁) from hok)
              | ok mr =>
                  obtain ⟨merged, w⟩ := mr
                  rw [hrec] at hok
                  have hok2 : (Except.ok ((jsReplaceProp t k₁ merged).1,
                      w ++ (jsReplaceProp t k₁ merged).2) :
                      Except JSErr (JSVal × List ArrWrite)) = .ok (t₁, w₁) := hok
                  obtain ⟨h1, -⟩ := Prod.mk.injEq .. ▸ Except.ok.injEq .. ▸ hok2
                  have hm : noFrozenFlags merged = true :=
                    deepMergeList_noFrozen opts (jsGetProp t k₁) vfields merged w
                      (noFrozenFlags_jsGetProp t k₁ ht) hvf hrec
                  rw [← h1]
                  exact noFrozenFlags_jsReplaceProp t k₁ merged ht hm
          | false =>
              rw [deepMergeEntry_vobj_gen_hasnot opts t k₁ vfr vfields hhp] at hok
              cases hsp : jsSetProp t k₁ (.vobj false []) with
              | error e =>
                  rw [hsp] at hok
                  cases (show (Except.error e : Except JSErr (JSVal × List ArrWrite)) =
                    .ok (t₁, w₁) from hok)
              | ok tw =>
                  obtain ⟨t₀, w₀⟩ := tw
                  rw [hsp] at hok
                  have ht₀ : noFrozenFlags t₀ = true :=
                    noFrozenFlags_jsSetProp t k₁ (.vobj false []) t₀ w₀ ht rfl hsp
                  have hok2 : (match deepMergeList opts (jsGetProp t₀ k₁) vfields with
                      | Except.error e =>
                          (Except.error e : Except JSErr (JSVal × List ArrWrite))
                      | Except.ok (merged, w) =>
                          Except.ok ((jsReplaceProp t₀ k₁ merged).1,
                            w₀ ++ w ++ (jsReplaceProp t₀ k₁ merged).2)) =
                      .ok (t₁, w₁) := hok
                  cases hrec : deepMergeList opts (jsGetProp t₀ k₁) vfields with
                  | error e =>
                      rw [hrec] at hok2
                      cases (show (Except.error e :
                        Except JSErr (JSVal × List ArrWrite)) = .ok (t₁, w₁) from hok2)
                  | ok mr =>
                      obtain ⟨merged, w⟩ := mr
                      rw [hrec] at hok2
                      have hok3 : (Except.ok ((jsReplaceProp t₀ k₁ merged).1,
                          w₀ ++ w ++ (jsReplaceProp t₀ k₁ merged).2) :
                          Except JSErr (JSVal × List ArrWrite)) = .ok (t₁, w₁) := hok2
                      obtain ⟨h1, -⟩ := Prod.mk.injEq .. ▸ Except.ok.injEq .. ▸ hok3
                      have hm : noFrozenFlags merged = true :=
                        deepMergeList_noFrozen opts (jsGetProp t₀ k₁) vfields merged w
                          (noFrozenFlags_jsGetProp t₀ k₁ ht₀) hvf hrec
                      rw [← h1]
                      exact noFrozenFlags_jsReplaceProp t₀ k₁ merged ht₀ hm

theorem deepMergeList_noFrozen (opts : ConfigOptions) (t : JSVal) :
    (src : List (String × JSVal)) → (t₂ : JSVal) → (w₂ : List ArrWrite) →
    noFrozenFlags t = true → noFrozenFlagsFields src = true →
    deepMergeList opts t src = .ok (t₂, w₂) → noFrozenFlags t₂ = true
  | [], t₂, w₂, ht, _, hok => by
      have hok2 : (Except.ok (t, []) : Except JSErr (JSVal × List ArrWrite)) =
        .ok (t₂, w₂) := hok
      obtain ⟨h1, -⟩ := Prod.mk.injEq .. ▸ Except.ok.injEq .. ▸ hok2
      rw [← h1]
      exact ht
  | (k, v) :: rest, t₂, w₂, ht, hsrc, hok => by
      obtain ⟨hv, hrest⟩ : noFrozenFlags v = true ∧ noFrozenFlagsFields rest = true := by
        simpa only [noFrozenFlagsFields, Bool.and_eq_true] using hsrc
      simp only [deepMergeList] at hok
      cases he : deepMergeEntry opts t k v with
      | error e =>
          rw [he] at hok
          cases (show (Except.error e : Except JSErr (JSVal × List ArrWrite)) =
            .ok (t₂, w₂) from hok)
      | ok p1 =>
          obtain ⟨t₁, w₁⟩ := p1
          rw [he] at hok
          have ht₁ : noFrozenFlags t₁ = true :=
            deepMergeEntry_noFrozen opts t k v t₁ w₁ ht hv he
          have hok2 : (match deepMergeList opts t₁ rest with
              | Except.error e => (Except.error e : Except JSErr (JSVal × List ArrWrite))
              | Except.ok (tt, ww) => Except.ok (tt, w₁ ++ ww)) = .ok (t₂, w₂) := hok
          cases hr : deepMergeList opts t₁ rest with
          | error e =>
              rw [hr] at hok2
              cases (show (Except.error e : Except JSErr (JSVal × List ArrWrite)) =
                .ok (t₂, w₂) from hok2)
          | ok p2 =>
              obtain ⟨tt, ww⟩ := p2
              rw [hr] at hok2
              have hok3 : (Except.ok (tt, w₁ ++ ww) :
                  Except JSErr (JSVal × List ArrWrite)) = .ok (t₂, w₂) := hok2
              obtain ⟨h1, -⟩ := Prod.mk.injEq .. ▸ Except.ok.injEq .. ▸ hok3
              rw [← h1]
              exact deepMergeList_noFrozen opts t₁ rest tt ww ht₁ hrest hr

end


theorem noFrozenFlagsFields_enumMap (l : List JSVal) :
    ∀ (n : Nat), noFrozenFlagsElems l = true →
    noFrozenFlagsFields ((List.enumFrom n l).map
      (fun p => (toString p.1, p.2))) = true := by
  induction l with
  | nil => intro n _; rfl
  | cons v rest ih =>
      intro n hl
      obtain ⟨h1, h2⟩ : noFrozenFlags v = true ∧ noFrozenFlagsElems rest = true := by
        simpa only [noFrozenFlagsElems, Bool.and_eq_true] using hl
      simp only [List.enumFrom, List.map_cons, noFrozenFlagsFields, Bool.and_eq_true]
      exact ⟨h1, ih (n + 1) h2⟩

theorem forInEntries_noFrozen (v : JSVal) (hv : noFrozenFlags v = true) :
    noFrozenFlagsFields (forInEntries v) = true := by
  cases v with
  | vobj fr fields => exact ((Bool.and_eq_true _ _).mp hv).2
  | varr i fr elems props =>
      obtain ⟨⟨-, he⟩, hp⟩ :
          ((!fr) = true ∧ noFrozenFlagsElems elems = true) ∧
            noFrozenFlagsFields props = true := by
        simpa only [noFrozenFlags, Bool.and_eq_true] using hv
      rw [forInEntries]
      exact noFrozenFlagsFields_append _ props
        (noFrozenFlagsFields_enumMap elems 0 he) hp
  | vnull => rfl
  | vundef => rfl
  | vbool b => rfl
  | vnum n => rfl
  | vstr s => rfl

theorem flattenLayers_noFrozen (opts : ConfigOptions) :
    ∀ (layers : List (LayerName × JSVal)) (acc flat : JSVal) (w : List ArrWrite),
    noFrozenFlags acc = true → (∀ p ∈ layers, noFrozenFlags p.2 = true) →
    flattenLayers opts acc layers = .ok (flat, w) → noFrozenFlags flat = true := by
  intro layers
  induction layers with
  | nil =>
      intro acc flat w hacc _ hok
      obtain ⟨h1, -⟩ := Prod.mk.injEq .. ▸ Except.ok.injEq .. ▸ hok
      rw [← h1]
      exact hacc
  | cons p rest ih =>
      intro acc flat w hacc hfr hok
      obtain ⟨n, frag⟩ := p
      simp only [flattenLayers] at hok
      cases hm : deepMerge opts acc frag with
      | error e =>
          rw [hm] at hok
          cases (show (Except.error e : Except JSErr (JSVal × List ArrWrite)) =
            .ok (flat, w) from hok)
      | ok p1 =>
          obtain ⟨acc₁, w₁⟩ := p1
          rw [hm] at hok
          have hfrag : noFrozenFlags frag = true := hfr (n, frag) (by simp)
          have hacc₁ : noFrozenFlags acc₁ = true :=
            deepMergeList_noFrozen opts acc (forInEntries frag) acc₁ w₁ hacc
              (forInEntries_noFrozen frag hfrag) hm
          have hok2 : (match flattenLayers opts acc₁ rest with
              | Except.error e =>
                  (Except.error e : Except JSErr (JSVal × List ArrWrite))
              | Except.ok (a2, w2) => Except.ok (a2, w₁ ++ w2)) = .ok (flat, w) := hok
          cases hr : flattenLayers opts acc₁ rest with
          | error e =>
              rw [hr] at hok2
              cases (show (Except.error e : Except JSErr (JSVal × List ArrWrite)) =
                .ok (flat, w) from hok2)
          | ok p2 =>
              obtain ⟨a2, w2⟩ := p2
              rw [hr] at hok2
              have hok3 : (Except.ok (a2, w₁ ++ w2) :
                  Except JSErr (JSVal × List ArrWrite)) = .ok (flat, w) := hok2
              obtain ⟨h1, -⟩ := Prod.mk.injEq .. ▸ Except.ok.injEq .. ▸ hok3
              rw [← h1]
              exact ih acc₁ a2 w2 hacc₁ (fun q hq => hfr q (by simp [hq])) hr

theorem deeplyFrozenFields_objLookup :
    (f : List (String × JSVal)) → (k : String) → (v : JSVal) →
    deeplyFrozenFields f = true → objLookup f k = some v → deeplyFrozen v = true
  | [], _, _, _, h => by cases h
  | (k₁, v₁) :: rest, k, v, hf, h => by
      obtain ⟨h1, h2⟩ : deeplyFrozen v₁ = true ∧ deeplyFrozenFields rest = true := by
        simpa only [deeplyFrozenFields, Bool.and_eq_true] using hf
      rw [objLookup] at h
      by_cases hk : k₁ = k
      · rw [if_pos hk] at h
        cases h
        exact h1
      · rw [if_neg hk] at h
        exact deeplyFrozenFields_objLookup rest k v h2 h

theorem deeplyFrozenElems_get :
    (l : List JSVal) → (i : Nat) → (v : JSVal) →
    deeplyFrozenElems l = true → l.get? i = some v → deeplyFrozen v = true
  | [], _, _, _, h => by cases h
  | a :: rest, i, v, hl, h => by
      obtain ⟨h1, h2⟩ : deeplyFrozen a = true ∧ deeplyFrozenElems rest = true := by
        simpa only [deeplyFrozenElems, Bool.and_eq_true] using hl
      cases i with
      | zero => cases h; exact h1
      | succ j => exact deeplyFrozenElems_get rest j v h2 h

theorem deeplyFrozen_jsGetProp (t : JSVal) (k : String)
    (ht : deeplyFrozen t = true) : deeplyFrozen (jsGetProp t k) = true := by
  cases t with
  | vobj fr fields =>
      obtain ⟨-, h2⟩ : fr = true ∧ deeplyFrozenFields fields = true := by
        simpa only [deeplyFrozen, Bool.and_eq_true] using ht
      rw [jsGetProp]
      cases hlk : objLookup fields k with
      | none => rfl
      | some v => exact deeplyFrozenFields_objLookup fields k v h2 hlk
  | varr i fr elems props =>
      obtain ⟨⟨-, he⟩, hp⟩ :
          (fr = true ∧ deeplyFrozenElems elems = true) ∧
            deeplyFrozenFields props = true := by
        simpa only [deeplyFrozen, Bool.and_eq_true] using ht
      rw [jsGetProp]
      by_cases hidx : (isIndexStr k && decide (indexOfStr k < elems.length)) = true
      · rw [if_pos hidx]
        cases hg : elems.get? (indexOfStr k) with
        | none => rfl
        | some v => exact deeplyFrozenElems_get elems (indexOfStr k) v he hg
      · rw [if_neg (by simpa using hidx)]
        by_cases hlen : k = "length"
        · rw [if_pos hlen]; rfl
        · rw [if_neg hlen]
          cases hlk : objLookup props k with
          | none => rfl
          | some v => exact deeplyFrozenFields_objLookup props k v hp hlk
  | vnull => rfl
  | vundef => rfl
  | vbool b => rfl
  | vnum n => rfl
  | vstr s => rfl

theorem jsSetProp_frozen_fails (t : JSVal) (field : String) (x : JSVal)
    (ht : deeplyFrozen t = true) : isOkE (jsSetProp t field x) = false := by
  cases t with
  | vobj fr fields =>
      have h1 : fr = true := (((Bool.and_eq_true _ _).mp ht)).1
      rw [jsSetProp, if_pos h1]
      rfl
  | varr i fr elems props =>
      have h1 : fr = true := ((Bool.and_eq_true _ _).mp
        (((Bool.and_eq_true _ _).mp ht)).1).1
      rw [jsSetProp, if_pos h1]
      rfl
  | vnull => rfl
  | vundef => rfl
  | vbool b => rfl
  | vnum n => rfl
  | vstr s => rfl

theorem jsSetPath_frozen_fails :
    ∀ (path : List String) (t : JSVal) (field : String) (x : JSVal),
    deeplyFrozen t = true → isOkE (jsSetPath t path field x) = false := by
  intro path
  induction path with
  | nil => intro t field x ht; exact jsSetProp_frozen_fails t field x ht
  | cons p rest ih =>
      intro t field x ht
      cases t with
      | vnull => rfl
      | vundef => rfl
      | vobj fr fields =>
          have hrec := ih (jsGetProp (.vobj fr fields) p) field x
            (deeplyFrozen_jsGetProp (.vobj fr fields) p ht)
          rw [jsSetPath] <;> try (intro h; cases h)
          cases hr : jsSetPath (jsGetProp (.vobj fr fields) p) rest field x with
          | error e => rfl
          | ok q =>
              rw [hr] at hrec
              cases hrec
      | varr i fr elems props =>
          have hrec := ih (jsGetProp (.varr i fr elems props) p) field x
            (deeplyFrozen_jsGetProp (.varr i fr elems props) p ht)
          rw [jsSetPath] <;> try (intro h; cases h)
          cases hr : jsSetPath (jsGetProp (.varr i fr elems props) p) rest field x with
          | error e => rfl
          | ok q =>
              rw [hr] at hrec
              cases hrec
      | vbool b =>
          have hrec := ih .vundef field x rfl
          rw [jsSetPath] <;> try (intro h; cases h)
          cases hr : jsSetPath (jsGetProp (.vbool b) p) rest field x with
          | error e => rfl
          | ok q =>
              have hr2 : jsSetPath JSVal.vundef rest field x = Except.ok q := hr
              rw [hr2] at hrec
              cases hrec
      | vnum n =>
          have hrec := ih .vundef field x rfl
          rw [jsSetPath] <;> try (intro h; cases h)
          cases hr : jsSetPath (jsGetProp (.vnum n) p) rest field x with
          | error e => rfl
          | ok q =>
              have hr2 : jsSetPath JSVal.vundef rest field x = Except.ok q := hr
              rw [hr2] at hrec
              cases hrec
      | vstr s =>
          have hrec := ih .vundef field x rfl
          rw [jsSetPath] <;> try (intro h; cases h)
          cases hr : jsSetPath (jsGetProp (.vstr s) p) rest field x with
          | error e => rfl
          | ok q =>
              have hr2 : jsSetPath JSVal.vundef rest field x = Except.ok q := hr
              rw [hr2] at hrec
              cases hrec

mutual

theorem deepFreeze_deeplyFrozen :
    (v : JSVal) → noFrozenFlags v = true → deeplyFrozen (deepFreeze v) = true
  | .vnull, _ => rfl
  | .vundef, _ => rfl
  | .vbool b, _ => rfl
  | .vnum n, _ => rfl
  | .vstr s, _ => rfl
  | .vobj fr fields, h => by
      obtain ⟨h1, h2⟩ : (!fr) = true ∧ noFrozenFlagsFields fields = true := by
        simpa only [noFrozenFlags, Bool.and_eq_true] using h
      have hfr : fr = false := by simpa using h1
      subst hfr
      rw [deepFreeze, if_neg (by simp)]
      simp only [deeplyFrozen, Bool.and_eq_true]
      exact ⟨trivial, deepFreezeFields_deeplyFrozen fields h2⟩
  | .varr i fr elems props, h => by
      obtain ⟨⟨h1, he⟩, hp⟩ :
          ((!fr) = true ∧ noFrozenFlagsElems elems = true) ∧
            noFrozenFlagsFields props = true := by
        simpa only [noFrozenFlags, Bool.and_eq_true] using h
      have hfr : fr = false := by simpa using h1
      subst hfr
      rw [deepFreeze, if_neg (by simp)]
      simp only [deeplyFrozen, Bool.and_eq_true]
      exact ⟨⟨trivial, deepFreezeElems_deeplyFrozen elems he⟩,
        deepFreezeFields_deeplyFrozen props hp⟩

theorem deepFreezeElems_deeplyFrozen :
    (l : List JSVal) → noFrozenFlagsElems l = true →
      deeplyFrozenElems (deepFreezeElems l) = true
  | [], _ => rfl
  | v :: rest, h => by
      obtain ⟨h1, h2⟩ : noFrozenFlags v = true ∧ noFrozenFlagsElems rest = true := by
        simpa only [noFrozenFlagsElems, Bool.and_eq_true] using h
      rw [deepFreezeElems]
      simp only [deeplyFrozenElems, Bool.and_eq_true]
      exact ⟨deepFreeze_deeplyFrozen v h1, deepFreezeElems_deeplyFrozen rest h2⟩

theorem deepFreezeFields_deeplyFrozen :
    (l : List (String × JSVal)) → noFrozenFlagsFields l = true →
      deeplyFrozenFields (deepFreezeFields l) = true
  | [], _ => rfl
  | (k, v) :: rest, h => by
      obtain ⟨h1, h2⟩ : noFrozenFlags v = true ∧ noFrozenFlagsFields rest = true := by
        simpa only [noFrozenFlagsFields, Bool.and_eq_true] using h
      rw [deepFreezeFields]
      simp only [deeplyFrozenFields, Bool.and_eq_true]
      exact ⟨deepFreeze_deeplyFrozen v h1, deepFreezeFields_deeplyFrozen rest h2⟩

end

theorem deepFreeze_idem (v : JSVal) : deepFreeze (deepFreeze v) = deepFreeze v := by
  cases v with
  | vnull => rfl
  | vundef => rfl
  | vbool b => rfl
  | vnum n => rfl
  | vstr s => rfl
  | vobj fr fields =>
      rw [deepFreeze]
      by_cases hfr : fr = true
      · rw [if_pos hfr]
        subst hfr
        rw [deepFreeze, if_pos rfl]
      · rw [if_neg hfr]
        rw [deepFreeze, if_pos rfl]
  | varr i fr elems props =>
      rw [deepFreeze]
      by_cases hfr : fr = true
      · rw [if_pos hfr]
        subst hfr
        rw [deepFreeze, if_pos rfl]
      · rw [if_neg hfr]
        rw [deepFreeze, if_pos rfl]


/-- Claim C3: freezing.  Part one: deepFreeze of a value carrying no frozen
flag yields a deeply frozen value (every nested object and array in the
result is frozen).  Part two: deepFreeze is idempotent.  Part three: for a
view built with the freeze option enabled, the flattened snapshot is deeply
frozen and every property-assignment chain against it fails.  The claim
additionally asserts that assigning to fields of the layer fragments in the
store throws, which is refuted by the counterexample: deepFreeze(this) does
not reach the fragments held inside the layers Map. -/
theorem freeze_deep_idempotent_and_snapshot_immutable :
    (∀ v : JSVal, noFrozenFlags v = true → deeplyFrozen (deepFreeze v) = true) ∧
    (∀ v : JSVal, deepFreeze (deepFreeze v) = deepFreeze v) ∧
    (∀ (layers : List (LayerName × JSVal)) (opts : ConfigOptions)
        (inst : Instance) (w : List ArrWrite),
      fromLayers layers opts = .ok (inst, w) →
      opts.freeze = true →
      (∀ p ∈ mapFromList layers, noFrozenFlags p.2 = true) →
      deeplyFrozen inst.flattened = true ∧
      ∀ (path : List String) (field : String) (x : JSVal),
        isOkE (jsSetPath inst.flattened path field x) = false) := by
  refine ⟨deepFreeze_deeplyFrozen, deepFreeze_idem, ?_⟩
  intro layers opts inst w hok hfz hnf
  rw [fromLayers] at hok
  cases hfl : flattenLayers opts (.vobj false []) (mapFromList layers) with
  | error e => rw [hfl] at hok; exact absurd hok (by simp)
  | ok fw =>
      obtain ⟨flat, w₀⟩ := fw
      rw [hfl] at hok
      have hok2 : (Except.ok
          ((if opts.freeze then
              freezeInstance
                { layers := mapFromList layers, options := opts, flattened := flat }
            else
              { layers := mapFromList layers, options := opts, flattened := flat }),
            w₀) : Except JSErr (Instance × List ArrWrite)) = .ok (inst, w) := hok
      obtain ⟨h1, -⟩ := Prod.mk.injEq .. ▸ Except.ok.injEq .. ▸ hok2
      rw [hfz, if_pos rfl] at h1
      have hflat : inst.flattened = deepFreeze flat := by rw [← h1]; rfl
      have hnfflat : noFrozenFlags flat = true :=
        flattenLayers_noFrozen opts (mapFromList layers) (.vobj false []) flat w₀
          rfl hnf hfl
      have hdf : deeplyFrozen inst.flattened = true := by
        rw [hflat]
        exact deepFreeze_deeplyFrozen flat hnfflat
      exact ⟨hdf, fun path field x =>
        jsSetPath_frozen_fails path inst.flattened field x hdf⟩

theorem freeze_deep_idempotent_and_snapshot_immutable_witness :
    deeplyFrozen (deepFreeze (.vobj false [("a", .vobj false [("b", .vnum 1)])])) =
      true ∧
    deepFreeze (deepFreeze (.vobj false [("a", .vobj false [("b", .vnum 1)])])) =
      deepFreeze (.vobj false [("a", .vobj false [("b", .vnum 1)])]) ∧
    deeplyFrozen
      ({ layers := [(.str "l", .vobj false [("a", .vobj false [("b", .vnum 1)])])]
         options := defaultOptions
         flattened := .vobj true [("a", .vobj true [("b", .vnum 1)])] } :
        Instance).flattened = true ∧
    isOkE (jsSetPath
      ({ layers := [(.str "l", .vobj false [("a", .vobj false [("b", .vnum 1)])])]
         options := defaultOptions
         flattened := .vobj true [("a", .vobj true [("b", .vnum 1)])] } :
        Instance).flattened ["a"] "b" (.vnum 2)) = false :=
  ⟨freeze_deep_idempotent_and_snapshot_immutable.1 _ (by decide),
   freeze_deep_idempotent_and_snapshot_immutable.2.1 _,
   (freeze_deep_idempotent_and_snapshot_immutable.2.2
      [(.str "l", .vobj false [("a", .vobj false [("b", .vnum 1)])])]
      defaultOptions _ [] rfl rfl (by decide)).1,
   (freeze_deep_idempotent_and_snapshot_immutable.2.2
      [(.str "l", .vobj false [("a", .vobj false [("b", .vnum 1)])])]
      defaultOptions _ [] rfl rfl (by decide)).2 ["a"] "b" (.vnum 2)⟩

/-- Claim C3, counterexample: with the default options (freeze enabled) the
layer fragments held in the store are not frozen: assigning a new value to
a field reached through a layer fragment succeeds instead of throwing, and
a subsequent nested read on the mutated view returns the new value. -/
theorem frozen_view_fragment_mutation_counterexample :
    (do
      let p ← fromLayers
        [(.str "l", .vobj false [("a", .vobj false [("b", .vnum 1)])])] defaultOptions
      let i₂ ← assignLayerField p.1 (.str "l") ["a"] "b" (.vnum 2)
      __getComplex i₂ "a.b" .vundef false) = .ok (.vnum 2) ∧
    (do
      let p ← fromLayers
        [(.str "l", .vobj false [("a", .vobj false [("b", .vnum 1)])])] defaultOptions
      __getComplex p.1 "a.b" .vundef false) = .ok (.vnum 1) ∧
    defaultOptions.freeze = true := by
  refine ⟨by decide, by decide, rfl⟩


/-- Claim C7, refutation (code bug): deriving a view can change the result
of a subsequent query on the original view.  The low layer holds an array
that the constructor assigns into the flattened accumulator by reference;
the derivation re-flattens the same store, and deep-merging the new middle
layer writes a property into that shared array in place.  The write log of
the derivation is non-empty, and propagating it through array identity
changes what getAll returns for the key on the original view, contradicting
the stated derivation non-mutation guarantee. -/
theorem derive_mutates_shared_fragment_array :
    ∃ (p d : Instance × List ArrWrite),
      fromLayers
        [(.str "lo", .vobj false [("a", .varr 0 false [.vnum 1, .vnum 2] [])]),
         (.str "mid", .vobj false [("a", .vnum 7)])] defaultOptions = .ok p ∧
      __derive p.1
        (.layerOnly "mid" (.vobj false [("a", .vobj false [("x", .vnum 5)])])) =
        .ok d ∧
      d.2 = [⟨0, [.vnum 1, .vnum 2], [("x", .vnum 5)]⟩] ∧
      __getAll (applyWritesInstance d.2 p.1) "a" ≠ __getAll p.1 "a" :=
  ⟨_, _, rfl, rfl, by decide, by decide⟩

end ConfigLayers
